import Mathlib

/-! distributed-kv-benchmark: wire codec, TCP client and latency histogram.

A shallow embedding of `client/tcpclient.go`, `client/client.go` and `main.go`.

Go strings and byte slices are lists of byte values (`Bytes`, each element a
number 0..255).  The buffered reader of a connection is the list of bytes not
yet consumed; the end of the list is end-of-stream.  A Go `int` is an `Int`
(64-bit range checked where the code depends on it, in `Atoi`); a
`time.Duration` that the benchmark measures is a non-negative number of
nanoseconds.  A function that can panic returns an `Outcome`.  `make` panics
on a length that the runtime's check refuses (negative, or above `maxAlloc`);
an allocation that passes the check is taken to succeed.
-/

namespace KVBench

/-- A Go string or byte slice: its bytes in order. -/
abbrev Bytes := List Nat

/-- Result of a call that either returns normally or panics.  Both carry the
state reached at that point. -/
inductive Outcome (π ρ : Type) where
  | panicked (st : π)
  | returned (val : ρ)
  deriving DecidableEq, Repr

/-- The same outcome with the state it carries rewritten. -/
def Outcome.map {π ρ π' ρ' : Type} (f : π → π') (g : ρ → ρ') : Outcome π ρ → Outcome π' ρ'
  | .panicked st => .panicked (f st)
  | .returned val => .returned (g val)

/-! ## Go library functions used by the client -/

/-- Largest value of a 64-bit Go `int`. -/
def maxInt : Nat := 2 ^ 63 - 1

/-- Loop of `fmt`'s integer formatting in base 10: while `u >= 10` the digit
`u - (u/10)*10` is stored in front of the buffer and `u` becomes `u/10`; the
last digit is stored after the loop.  `fuel` bounds the number of rounds. -/
def fmtDigits : Nat → Nat → Bytes → Bytes
  | 0, u, buf => (48 + u % 10) :: buf
  | fuel + 1, u, buf =>
    if u ≥ 10 then fmtDigits fuel (u / 10) ((48 + (u - (u / 10) * 10)) :: buf)
    else (48 + u) :: buf

/-- Verb `%d` of `fmt.Sprintf` on an `int`: a minus sign for a negative
number, then the decimal digits of its magnitude. -/
def fmtInt (n : Int) : Bytes :=
  if n < 0 then 45 :: fmtDigits n.natAbs n.natAbs [] else fmtDigits n.natAbs n.natAbs []

/-- Errors that the client code creates or receives. -/
inductive GoError where
  /-- Value `io.EOF`. -/
  | eof
  /-- Value `io.ErrUnexpectedEOF`. -/
  | unexpectedEOF
  /-- A `*strconv.NumError` with `ErrSyntax`. -/
  | badNumber
  /-- A `*strconv.NumError` with `ErrRange`. -/
  | outOfRange
  /-- The marker `&TcpErr{}` of `readLen`. -/
  | tcpErr
  /-- An `errors.New(msg + err.Error())` built around another error. -/
  | wrapped (inner : GoError)
  deriving DecidableEq, Repr

/-- Limit `maxAlloc` of the Go runtime on a 64-bit platform (48 address bits). -/
def maxAlloc : Nat := 2 ^ 48

/-- Check of `makeslice` for `make([]byte, n)`: it panics ("makeslice: len out
of range") when `n` is negative or the size is above `maxAlloc`. -/
abbrev makePanics (n : Int) : Prop := n < 0 ∨ n > (maxAlloc : Int)

/-- Largest value of a Go `uint64`. -/
def maxUint64 : Nat := 2 ^ 64 - 1

/-- Digit loop of `strconv.ParseUint` in base 10 (the fast path of `Atoi`
computes the same on the short strings it takes): the bytes are read left to
right; a byte that is not an ASCII digit is a syntax error; a value that
leaves the `uint64` range (`n >= cutoff`, or `n*10 + d` above the maximum) is
a range error, reported at the digit where it happens. -/
def parseDigits : Nat → Bytes → Except GoError Nat
  | n, [] => .ok n
  | n, ch :: rest =>
    if 48 ≤ ch ∧ ch ≤ 57 then
      if n * 10 + (ch - 48) > maxUint64 then .error .outOfRange
      else parseDigits (n * 10 + (ch - 48)) rest
    else .error .badNumber

/-- Function `strconv.Atoi` on a 64-bit platform: an optional sign, then at
least one digit and only digits; a value outside the `int` range is a range
error. -/
def Atoi (s : Bytes) : Except GoError Int :=
  match s with
  | [] => .error .badNumber
  | c :: t =>
    let neg := c = 45
    let body := if c = 45 ∨ c = 43 then t else s
    match body with
    | [] => .error .badNumber
    | _ :: _ =>
      match parseDigits 0 body with
      | .error err => .error err
      | .ok un =>
        if neg then
          if un > maxInt + 1 then .error .outOfRange else .ok (-(un : Int))
        else
          if un > maxInt then .error .outOfRange else .ok (un : Int)

/-- Number of bytes of the white-space rune (`unicode.IsSpace`) whose UTF-8
encoding starts the string, or 0 when the string does not start with one.
The white-space runes are U+0009..U+000D, U+0020, U+0085, U+00A0, U+1680,
U+2000..U+200A, U+2028, U+2029, U+202F, U+205F and U+3000. -/
def spaceWidth : Bytes → Nat
  | [] => 0
  | b :: t =>
    if (9 ≤ b ∧ b ≤ 13) ∨ b = 32 then 1
    else if b = 0xC2 then
      match t with
      | c :: _ => if c = 0x85 ∨ c = 0xA0 then 2 else 0
      | [] => 0
    else if b = 0xE1 then
      match t with
      | c :: d :: _ => if c = 0x9A ∧ d = 0x80 then 3 else 0
      | _ => 0
    else if b = 0xE2 then
      match t with
      | c :: d :: _ =>
        if c = 0x80 ∧ ((0x80 ≤ d ∧ d ≤ 0x8A) ∨ d = 0xA8 ∨ d = 0xA9 ∨ d = 0xAF) then 3
        else if c = 0x81 ∧ d = 0x9F then 3 else 0
      | _ => 0
    else if b = 0xE3 then
      match t with
      | c :: d :: _ => if c = 0x80 ∧ d = 0x80 then 3 else 0
      | _ => 0
    else 0

/-- Number of bytes of the white-space rune whose UTF-8 encoding ends the
string, or 0; the argument is the string reversed. -/
def spaceWidthEnd : Bytes → Nat
  | [] => 0
  | b :: t =>
    if (9 ≤ b ∧ b ≤ 13) ∨ b = 32 then 1
    else
      match t with
      | [] => 0
      | c :: u =>
        if c = 0xC2 ∧ (b = 0x85 ∨ b = 0xA0) then 2
        else
          match u with
          | [] => 0
          | d :: _ => if spaceWidth [d, c, b] = 3 then 3 else 0

/-- Leading part of `strings.TrimSpace`: white-space runes are dropped from
the front while there is one. -/
def trimLeft : Nat → Bytes → Bytes
  | 0, s => s
  | fuel + 1, s => if spaceWidth s = 0 then s else trimLeft fuel (s.drop (spaceWidth s))

/-- Trailing part of `strings.TrimSpace`, on the reversed string. -/
def trimRightRev : Nat → Bytes → Bytes
  | 0, s => s
  | fuel + 1, s =>
    if spaceWidthEnd s = 0 then s else trimRightRev fuel (s.drop (spaceWidthEnd s))

/-- Function `strings.TrimSpace`: the string without leading and trailing
white space. -/
def TrimSpace (s : Bytes) : Bytes :=
  let l := trimLeft s.length s
  (trimRightRev l.length l.reverse).reverse

/-- Method `bufio.Reader.ReadString(delim)` on the unread bytes: the bytes up
to and including the first `delim`, the bytes left unread, and `io.EOF`
(with everything consumed) when the stream ends before a `delim`. -/
def ReadString (delim : Nat) : Bytes → Bytes × Bytes × Option GoError
  | [] => ([], [], some .eof)
  | b :: t =>
    if b = delim then ([b], t, none)
    else
      let res := ReadString delim t
      (b :: res.1, res.2.1, res.2.2)

/-- Function `io.ReadFull(r, buf)` with `len(buf) = n`: exactly `n` bytes are
read; a shorter stream is consumed and gives `io.EOF` when nothing was read
and `io.ErrUnexpectedEOF` otherwise. -/
def ReadFull (n : Nat) (r : Bytes) : Bytes × Bytes × Option GoError :=
  if n ≤ r.length then (r.take n, r.drop n, none)
  else (r, [], some (if r = [] then .eof else .unexpectedEOF))

/-! ## client/tcpclient.go -/

/-- Constant `GET = "get"`. -/
def GET : Bytes := [103, 101, 116]
/-- Constant `SET = "set"`. -/
def SET : Bytes := [115, 101, 116]
/-- Constant `DEL = "del"`. -/
def DEL : Bytes := [100, 101, 108]

/-- Struct `Cmd` of client/client.go. -/
structure Cmd where
  Name : Bytes
  Key : Bytes
  Value : Bytes
  Error : Option GoError
  deriving DecidableEq, Repr

/-- Struct `TcpClient`: `out` is every byte handed to `Write` on the embedded
connection, in order; `r` is what the buffered reader has not consumed yet.
A `Write` is taken to succeed (the callers only log a failed one and go on). -/
structure TcpClient where
  out : Bytes
  r : Bytes
  deriving DecidableEq, Repr

/-- Method `Write` of the embedded connection. -/
def TcpClient.Write (c : TcpClient) (b : Bytes) : TcpClient :=
  { c with out := c.out ++ b }

/-- Method `SendGet`: writes `fmt.Sprintf("G%d %s", len(key), key)`. -/
def TcpClient.SendGet (c : TcpClient) (key : Bytes) : TcpClient :=
  c.Write (71 :: fmtInt key.length ++ 32 :: key)

/-- Method `SendSet`: writes
`fmt.Sprintf("S%d %d %s%s", len(key), len(value), key, string(value))`. -/
def TcpClient.SendSet (c : TcpClient) (key value : Bytes) : TcpClient :=
  c.Write (83 :: fmtInt key.length ++ 32 :: fmtInt value.length ++ 32 :: key ++ value)

/-- Method `SendDel`: writes `fmt.Sprintf("D%d %s", len(key), key)`. -/
def TcpClient.SendDel (c : TcpClient) (key : Bytes) : TcpClient :=
  c.Write (68 :: fmtInt key.length ++ 32 :: key)

/-- Function `readLen`: the unread bytes afterwards, and the pair
`(int, error)` it returns. -/
def readLen (r : Bytes) : Bytes × Int × Option GoError :=
  match ReadString 32 r with
  | (_, rest, some err) => (rest, 0, some (.wrapped err))
  | (tmp, rest, none) =>
    let tmp := TrimSpace tmp
    if tmp = [45] then (rest, 0, some .tcpErr)
    else
      match Atoi tmp with
      | .error err => (rest, 0, some (.wrapped err))
      | .ok length => (rest, length, none)

/-- Function `readABNFBytesArray`: the unread bytes afterwards, and the pair
`(string, error)` it returns.  `make([]byte, length)` panics on a length that
`makeslice` refuses. -/
def readABNFBytesArray (r : Bytes) : Outcome Bytes (Bytes × Bytes × Option GoError) :=
  match ReadString 32 r with
  | (_, rest, some err) => .returned (rest, [], some err)
  | (lengthStr, rest, none) =>
    match Atoi lengthStr with
    | .error err => .returned (rest, [], some (.wrapped err))
    | .ok length =>
      if makePanics length then .panicked rest
      else
        match ReadFull length.toNat rest with
        | (_, rest2, some err) => .returned (rest2, [], some (.wrapped err))
        | (content, rest2, none) => .returned (rest2, content, none)

/-- Method `recvResp`: the client afterwards, and the pair `(string, error)`
it returns.  `make([]byte, vlen)` panics on a `vlen` that `makeslice`
refuses. -/
def TcpClient.recvResp (c : TcpClient) : Outcome TcpClient (TcpClient × Bytes × Option GoError) :=
  match readLen c.r with
  | (rest, _, some err) =>
    if err = .tcpErr then
      match readABNFBytesArray rest with
      | .panicked rest2 => .panicked { c with r := rest2 }
      | .returned (rest2, _, some err2) => .returned ({ c with r := rest2 }, [], some err2)
      | .returned (rest2, eContent, none) => .returned ({ c with r := rest2 }, eContent, none)
    else .returned ({ c with r := rest }, [], some err)
  | (rest, vlen, none) =>
    if makePanics vlen then .panicked { c with r := rest }
    else
      match ReadFull vlen.toNat rest with
      | (_, rest2, some err) => .returned ({ c with r := rest2 }, [], some (.wrapped err))
      | (value, rest2, none) => .returned ({ c with r := rest2 }, value, none)

/-- Dispatch of `Run` and of the write loop of `PipelineRun` on `cmd.Name`: the
client after the request was sent, or `none` in the `default` case. -/
def TcpClient.send (c : TcpClient) (cmd : Cmd) : Option TcpClient :=
  if cmd.Name = GET then some (c.SendGet cmd.Key)
  else if cmd.Name = SET then some (c.SendSet cmd.Key cmd.Value)
  else if cmd.Name = DEL then some (c.SendDel cmd.Key)
  else none

/-- Method `Run`: the request is sent (an unknown name panics), then
`cmd.Value, cmd.Error = c.recvResp()`. -/
def TcpClient.Run (c : TcpClient) (cmd : Cmd) : Outcome (TcpClient × Cmd) (TcpClient × Cmd) :=
  match c.send cmd with
  | none => .panicked (c, cmd)
  | some c1 =>
    match c1.recvResp with
    | .panicked c2 => .panicked (c2, cmd)
    | .returned (c2, value, err) => .returned (c2, { cmd with Value := value, Error := err })

/-- Write loop of `PipelineRun`: every command is sent in order; an unknown
name is only logged. -/
def TcpClient.pipelineSend (c : TcpClient) : List Cmd → TcpClient
  | [] => c
  | cmd :: rest =>
    match c.send cmd with
    | some c1 => pipelineSend c1 rest
    | none => pipelineSend c rest

/-- Read loop of `PipelineRun`: `cmd.Value, cmd.Error = c.recvResp()`, then the
log call whose argument `cmd.Error.Error()` is a method call on a nil
interface, hence a panic, when `recvResp` returned a nil error. -/
def TcpClient.pipelineRecv (c : TcpClient) :
    List Cmd → Outcome (TcpClient × List Cmd) (TcpClient × List Cmd)
  | [] => .returned (c, [])
  | cmd :: rest =>
    match c.recvResp with
    | .panicked c1 => .panicked (c1, cmd :: rest)
    | .returned (c1, value, err) =>
      let cmd1 : Cmd := { cmd with Value := value, Error := err }
      match err with
      | none => .panicked (c1, cmd1 :: rest)
      | some _ =>
        match pipelineRecv c1 rest with
        | .panicked (c2, rest2) => .panicked (c2, cmd1 :: rest2)
        | .returned (c2, rest2) => .returned (c2, cmd1 :: rest2)

/-- Method `PipelineRun`: nothing for an empty batch; otherwise the write loop,
then the read loop. -/
def TcpClient.PipelineRun (c : TcpClient) (cmds : List Cmd) :
    Outcome (TcpClient × List Cmd) (TcpClient × List Cmd) :=
  if cmds.length = 0 then .returned (c, cmds)
  else (c.pipelineSend cmds).pipelineRecv cmds

/-- Interface `Client` of client/client.go, over the state `σ` of an
implementation.  Both methods get pointers to the commands and may update
them. -/
structure Client (σ : Type) where
  Run : σ → Cmd → Outcome (σ × Cmd) (σ × Cmd)
  PipelineRun : σ → List Cmd → Outcome (σ × List Cmd) (σ × List Cmd)

/-- The implementation that `New("tcp", server)` returns. -/
def tcpClient : Client TcpClient := ⟨TcpClient.Run, TcpClient.PipelineRun⟩

/-! ## main.go -/

/-- Constant `time.Millisecond`, in nanoseconds. -/
def Millisecond : Nat := 1000000

/-- The classification string `"miss"`. -/
def MISS : Bytes := [109, 105, 115, 115]

/-- Struct `statistic`. -/
structure statistic where
  count : Nat
  time : Nat
  deriving DecidableEq, Repr

/-- Struct `result`. -/
structure result where
  getCount : Nat
  missCount : Nat
  setCount : Nat
  statBuckets : List statistic
  deriving DecidableEq, Repr

/-- The value `&result{statBuckets: make([]statistic, 0)}`. -/
def result.empty : result := ⟨0, 0, 0, []⟩

/-- Method `addStatistic`: the bucket slice is replaced by a zero-filled copy
of length `bucket+1` when `bucket > len(r.statBuckets)-1`; then the count and
the time of `stat` are assigned to the entry at `bucket`. -/
def result.addStatistic (r : result) (bucket : Nat) (stat : statistic) : result :=
  let buckets :=
    if (bucket : Int) > (r.statBuckets.length : Int) - 1 then
      r.statBuckets ++ List.replicate (bucket + 1 - r.statBuckets.length) ⟨0, 0⟩
    else r.statBuckets
  { r with statBuckets := buckets.set bucket { count := stat.count, time := stat.time } }

/-- Method `addDuration`. -/
def result.addDuration (r : result) (d : Nat) (typ : Bytes) : result :=
  let bucket := d / Millisecond
  let r := r.addStatistic bucket ⟨1, d⟩
  if typ = GET then { r with getCount := r.getCount + 1 }
  else if typ = SET then { r with setCount := r.setCount + 1 }
  else { r with missCount := r.missCount + 1 }

/-- Loop `for b, s := range src.statBuckets { r.addStatistic(b, s) }` of
`addResult`, from index `b` on. -/
def result.addBuckets (r : result) : Nat → List statistic → result
  | _, [] => r
  | b, s :: rest => (r.addStatistic b s).addBuckets (b + 1) rest

/-- Method `addResult`. -/
def result.addResult (r src : result) : result :=
  let r := r.addBuckets 0 src.statBuckets
  { r with
    getCount := r.getCount + src.getCount
    missCount := r.missCount + src.missCount
    setCount := r.setCount + src.setCount }

/-- Second loop of `pipeline`, from index `i` on: the classification of every
command after `PipelineRun`, against `expect[i]`; every request of the batch
is recorded with the duration `d` of the batch. -/
def pipelineLoop (d : Nat) (expect : List Bytes) : Nat → List Cmd → result → Outcome result result
  | _, [], r => .returned r
  | i, c :: cs, r =>
    let resType := c.Name
    if resType = GET then
      if c.Value = [] then pipelineLoop d expect (i + 1) cs (r.addDuration d MISS)
      else if c.Value ≠ expect.getD i [] then .panicked r
      else pipelineLoop d expect (i + 1) cs (r.addDuration d resType)
    else pipelineLoop d expect (i + 1) cs (r.addDuration d resType)

/-- First loop of `pipeline`: `expect[i]` is the value of a GET command and the
empty string otherwise. -/
def expectOf (cmds : List Cmd) : List Bytes :=
  cmds.map (fun c => if c.Name = GET then c.Value else [])

/-- Function `pipeline`; `d` is the time measured around `cli.PipelineRun`. -/
def pipeline {σ : Type} (cli : Client σ) (st : σ) (cmds : List Cmd) (r : result) (d : Nat) :
    Outcome (σ × List Cmd × result) (σ × List Cmd × result) :=
  let expect := expectOf cmds
  match cli.PipelineRun st cmds with
  | .panicked (st1, cmds1) => .panicked (st1, cmds1, r)
  | .returned (st1, cmds1) =>
    (pipelineLoop d expect 0 cmds1 r).map (fun r1 => (st1, cmds1, r1)) (fun r1 => (st1, cmds1, r1))

/-- Function `run`; `d` is the time measured around `cli.Run`. -/
def run {σ : Type} (cli : Client σ) (st : σ) (c : Cmd) (r : result) (d : Nat) :
    Outcome (σ × Cmd × result) (σ × Cmd × result) :=
  let expect := c.Value
  match cli.Run st c with
  | .panicked (st1, c1) => .panicked (st1, c1, r)
  | .returned (st1, c1) =>
    let resType := c1.Name
    if resType = GET then
      if c1.Value = [] then .returned (st1, c1, r.addDuration d MISS)
      else if c1.Value ≠ expect then .panicked (st1, c1, r)
      else .returned (st1, c1, r.addDuration d resType)
    else .returned (st1, c1, r.addDuration d resType)

/-- Loop of `main` over `res.statBuckets` that adds up the counts of the
non-empty buckets (`statCountSum`). -/
def statCountSum : List statistic → Nat
  | [] => 0
  | s :: rest => if s.count = 0 then statCountSum rest else s.count + statCountSum rest

/-- The operation name `"mixed"`. -/
def MIXED : Bytes := [109, 105, 120, 101, 100]

/-- Flags of main.go that `operate` reads (`-t`, `-d`, `-r`, `-p`); each is a
Go `int` or string that the command line sets. -/
structure Flags where
  operation : Bytes
  valueSize : Int
  keySpaceLen : Int
  pipeLen : Int

/-- What `operate` takes from outside: `randKey i` is the result of
`rand.Intn(keySpaceLen)` and `coin i` the result of `rand.Intn(2)` in
iteration `i`; `dur n` is the time measured around the call of `run` or
`pipeline` that is made when `n` commands have been generated. -/
structure World where
  randKey : Nat → Int
  coin : Nat → Int
  dur : Nat → Nat

/-- Arithmetic on a 64-bit Go `int` wraps around (two's complement). -/
def wrapInt (x : Int) : Int := (x + 2 ^ 63) % 2 ^ 64 - 2 ^ 63

/-- The sequential key `id*count + i` of `operate`. -/
def seqKey (id count : Int) (i : Nat) : Int := wrapInt (wrapInt (id * count) + (i : Int))

/-- The command that iteration `i` of the loop of `operate` builds; its value
is `valueSize` bytes "v" followed by the decimal key. -/
def genCmd (f : Flags) (w : World) (id count : Int) (i : Nat) : Cmd :=
  let tmpKey : Int := if f.keySpaceLen > 0 then w.randKey i else seqKey id count i
  let key := fmtInt tmpKey
  let value := List.replicate f.valueSize.toNat 118 ++ fmtInt tmpKey
  let name := if f.operation = MIXED then (if w.coin i = 1 then GET else SET) else f.operation
  { Name := name, Key := key, Value := value, Error := none }

/-- Loop `for i := 0; i < count; i++` of `operate`, with `rem` iterations left
at index `i`; `cmds` is the batch collected so far. -/
def operateLoop {σ : Type} (cli : Client σ) (f : Flags) (w : World) (id count : Int) :
    Nat → Nat → σ → List Cmd → result → Outcome (σ × result) (σ × List Cmd × result)
  | 0, _, st, cmds, res => .returned (st, cmds, res)
  | rem + 1, i, st, cmds, res =>
    let c := genCmd f w id count i
    if f.pipeLen > 1 then
      let cmds := cmds ++ [c]
      if (cmds.length : Int) = f.pipeLen then
        match pipeline cli st cmds res (w.dur (i + 1)) with
        | .panicked (st1, _, res1) => .panicked (st1, res1)
        | .returned (st1, _, res1) => operateLoop cli f w id count rem (i + 1) st1 [] res1
      else operateLoop cli f w id count rem (i + 1) st cmds res
    else
      match run cli st c res (w.dur (i + 1)) with
      | .panicked (st1, _, res1) => .panicked (st1, res1)
      | .returned (st1, _, res1) => operateLoop cli f w id count rem (i + 1) st1 cmds res1

/-- End of `operate`, after the loop over `n` iterations: a batch that is
left is handed to `pipeline`. -/
def flushRest {σ : Type} (cli : Client σ) (w : World) (n : Nat) :
    Outcome (σ × result) (σ × List Cmd × result) → Outcome (σ × result) (σ × result)
  | .panicked x => .panicked x
  | .returned (st1, cmds, res) =>
    if cmds.length ≠ 0 then
      match pipeline cli st1 cmds res (w.dur n) with
      | .panicked (st2, _, res2) => .panicked (st2, res2)
      | .returned (st2, _, res2) => .returned (st2, res2)
    else .returned (st1, res)

/-- Function `operate` on the client `st` that `client.New` returned; the
value it returns is the result sent on the channel.  `strings.Repeat` panics
on a negative `valueSize`. -/
def operate {σ : Type} (cli : Client σ) (f : Flags) (w : World) (st : σ) (id count : Int) :
    Outcome (σ × result) (σ × result) :=
  if f.valueSize < 0 then .panicked (st, result.empty)
  else
    flushRest cli w count.toNat
      (operateLoop cli f w id count count.toNat 0 st [] result.empty)

/-- First loop of `main`: the arguments `(i, total/threads)` of the workers
that `go operate(i, total/threads, ch)` starts, for `i` from 0 below
`threads`.  Go's `/` on integers truncates towards zero. -/
def spawnArgs (total threads : Int) : List (Int × Int) :=
  (List.range threads.toNat).map (fun (i : Nat) => ((i : Int), Int.tdiv total threads))

/-! ## Notions of the specification -/

/-- Decimal ASCII representation of a natural number, as the specification's
`decimal(n)`: the character codes of the digits of `n` in base 10. -/
def decimal (n : Nat) : Bytes := (Nat.toDigits 10 n).map Char.toNat

/-- An ASCII digit, `'0'..'9'`. -/
def isDigit (b : Nat) : Prop := 48 ≤ b ∧ b ≤ 57

/-- A sequence of `addDuration` calls, one per recorded `(duration, type)`. -/
def recordAll (r : result) (calls : List (Nat × Bytes)) : result :=
  calls.foldl (fun acc call => acc.addDuration call.1 call.2) r

/-- Number of recorded durations `d` with `floor(d / 1ms) = b`. -/
def recordedCount (calls : List (Nat × Bytes)) (b : Nat) : Nat :=
  (calls.filter (fun call => call.1 / Millisecond = b)).length

/-- Sum of the recorded durations `d` with `floor(d / 1ms) = b`. -/
def recordedTime (calls : List (Nat × Bytes)) (b : Nat) : Nat :=
  ((calls.filter (fun call => call.1 / Millisecond = b)).map (fun call => call.1)).sum

/-- Count of bucket `b`, a missing bucket counting as zero. -/
def countAt (r : result) (b : Nat) : Nat := (r.statBuckets.getD b ⟨0, 0⟩).count

/-- Cumulative time of bucket `b`, a missing bucket counting as zero. -/
def timeAt (r : result) (b : Nat) : Nat := (r.statBuckets.getD b ⟨0, 0⟩).time

/-- Bucket index `floor(d / 1ms)` of a recorded duration. -/
def bucketOf (d : Nat) : Nat := d / Millisecond

/-- Largest bucket index among the recorded durations (0 for no duration). -/
def maxBucket (calls : List (Nat × Bytes)) : Nat :=
  (calls.map (fun call => bucketOf call.1)).foldr max 0

/-- Bytes that the wire grammar prescribes for a command: `get-req`, `set-req`
or `del-req`, and nothing for any other name. -/
def encode (cmd : Cmd) : Bytes :=
  if cmd.Name = GET then [71] ++ decimal cmd.Key.length ++ [32] ++ cmd.Key
  else if cmd.Name = SET then
    [83] ++ decimal cmd.Key.length ++ [32] ++ decimal cmd.Value.length ++ [32]
      ++ cmd.Key ++ cmd.Value
  else if cmd.Name = DEL then [68] ++ decimal cmd.Key.length ++ [32] ++ cmd.Key
  else []

/-- The commands that the loop of `operate` generates from index `i` on, `rem`
of them, in iteration order. -/
def genFrom (f : Flags) (w : World) (id count : Int) : Nat → Nat → List Cmd
  | _, 0 => []
  | i, rem + 1 => genCmd f w id count i :: genFrom f w id count (i + 1) rem

/-- The commands that a worker generates, in iteration order. -/
def genCmds (f : Flags) (w : World) (id count : Int) : List Cmd :=
  genFrom f w id count 0 count.toNat

/-- A list cut into consecutive pieces of `L` elements, the last piece holding
what is left; `fuel` bounds the number of pieces. -/
def chunksAux {α : Type} (L : Nat) : Nat → List α → List (List α)
  | 0, _ => []
  | _, [] => []
  | fuel + 1, x :: xs => (x :: xs).take L :: chunksAux L fuel ((x :: xs).drop L)

/-- A list cut into consecutive pieces of `L` elements, the last piece holding
what is left. -/
def chunks {α : Type} (L : Nat) (xs : List α) : List (List α) := chunksAux L xs.length xs

/-- The batches handed to `pipeline` one after the other, `n` commands having
been generated before the first of them; a panic ends the sequence. -/
def runBatches {σ : Type} (cli : Client σ) (w : World) :
    List (List Cmd) → Nat → σ → result → Outcome (σ × result) (σ × result)
  | [], _, st, res => .returned (st, res)
  | b :: bs, n, st, res =>
    match pipeline cli st b res (w.dur (n + b.length)) with
    | .panicked (st1, _, res1) => .panicked (st1, res1)
    | .returned (st1, _, res1) => runBatches cli w bs (n + b.length) st1 res1

/-- Value of a string of decimal digits, without a bound. -/
def decValue (s : Bytes) : Nat := s.foldl (fun acc ch => acc * 10 + (ch - 48)) 0

/-! ## Decimal formatting and parsing -/

theorem digitChar_toNat (d : Nat) (h : d < 10) : (Nat.digitChar d).toNat = 48 + d := by
  interval_cases d <;> rfl

theorem fmtDigits_eq_toDigitsCore (fuel : Nat) :
    ∀ (u : Nat) (ds : List Char), u ≤ fuel →
      (Nat.toDigitsCore 10 (fuel + 1) u ds).map Char.toNat = fmtDigits fuel u (ds.map Char.toNat) := by
  induction fuel with
  | zero =>
    intro u ds hu
    have h0 : u = 0 := by omega
    subst h0
    simp [Nat.toDigitsCore, fmtDigits, digitChar_toNat]
  | succ k ih =>
    intro u ds hu
    rw [Nat.toDigitsCore, fmtDigits]
    by_cases h10 : u ≥ 10
    · have hq : u / 10 ≠ 0 := by omega
      have hle : u / 10 ≤ k := by omega
      have hm : u - u / 10 * 10 = u % 10 := by omega
      simp only [hq, if_false, h10, if_true, hm]
      rw [ih (u / 10) _ hle]
      simp [digitChar_toNat, Nat.mod_lt]
    · have hq : u / 10 = 0 := by omega
      have hm : u % 10 = u := by omega
      simp [hq, h10, hm, digitChar_toNat, show u < 10 by omega]

theorem fmtInt_natCast (n : Nat) : fmtInt (n : Int) = decimal n := by
  have h := fmtDigits_eq_toDigitsCore n n [] (Nat.le_refl n)
  simp only [List.map_nil] at h
  simp [fmtInt, decimal, Nat.toDigits, h]

theorem fmtDigits_acc (fuel : Nat) :
    ∀ (u : Nat) (buf : Bytes), fmtDigits fuel u buf = fmtDigits fuel u [] ++ buf := by
  induction fuel with
  | zero => intro u buf; simp [fmtDigits]
  | succ k ih =>
    intro u buf
    simp only [fmtDigits]
    split
    · rw [ih _ (_ :: buf), ih _ [_]]; simp
    · simp

theorem fmtDigits_digits (fuel : Nat) :
    ∀ (u : Nat), u ≤ fuel → ∀ b ∈ fmtDigits fuel u [], isDigit b := by
  induction fuel with
  | zero =>
    intro u hu b hb
    have h0 : u = 0 := by omega
    subst h0
    simp [fmtDigits] at hb
    subst hb; simp [isDigit]
  | succ k ih =>
    intro u hu b hb
    simp only [fmtDigits] at hb
    split at hb
    · rw [fmtDigits_acc] at hb
      simp only [List.mem_append, List.mem_singleton] at hb
      rcases hb with hb | hb
      · exact ih (u / 10) (by omega) b hb
      · subst hb; unfold isDigit; omega
    · simp only [List.mem_singleton] at hb
      subst hb; unfold isDigit; omega

theorem fmtDigits_ne_nil (fuel u : Nat) : fmtDigits fuel u [] ≠ [] := by
  cases fuel with
  | zero => simp [fmtDigits]
  | succ k =>
    simp only [fmtDigits]
    split
    · rw [fmtDigits_acc]; simp
    · simp

theorem parseDigits_append (xs : Bytes) :
    ∀ (acc : Nat) (ys : Bytes),
      parseDigits acc (xs ++ ys) = (parseDigits acc xs).bind (fun v => parseDigits v ys) := by
  induction xs with
  | nil => intro acc ys; rfl
  | cons x xs ih =>
    intro acc ys
    simp only [List.cons_append, parseDigits]
    split
    · split
      · rfl
      · exact ih _ _
    · rfl

theorem parseDigits_fmtDigits (fuel : Nat) :
    ∀ (u : Nat), u ≤ fuel → u ≤ maxUint64 → parseDigits 0 (fmtDigits fuel u []) = .ok u := by
  induction fuel with
  | zero =>
    intro u hu _
    have h0 : u = 0 := by omega
    subst h0
    rfl
  | succ k ih =>
    intro u hu hmax
    have h4 : ¬ (u > maxUint64) := Nat.not_lt.mpr hmax
    unfold maxUint64 at hmax
    simp only [fmtDigits]
    split
    · rw [fmtDigits_acc, parseDigits_append, ih (u / 10) (by omega) (by unfold maxUint64; omega)]
      have hm : u - u / 10 * 10 = u % 10 := by omega
      have h1 : 48 ≤ 48 + u % 10 ∧ 48 + u % 10 ≤ 57 := by omega
      have h3 : u / 10 * 10 + (48 + u % 10 - 48) = u := by omega
      simp only [Except.bind, parseDigits, hm, h1, and_self, if_true, h3, h4, if_false]
    · have h1 : 48 ≤ 48 + u ∧ 48 + u ≤ 57 := by omega
      have h3 : 0 * 10 + (48 + u - 48) = u := by omega
      simp only [parseDigits, h1, and_self, if_true, h3, h4, if_false]

theorem decimal_eq (n : Nat) : decimal n = fmtDigits n n [] := by
  rw [← fmtInt_natCast]; simp [fmtInt]

theorem decimal_digits (n : Nat) : ∀ b ∈ decimal n, isDigit b := by
  rw [decimal_eq]; exact fmtDigits_digits n n (Nat.le_refl n)

theorem decimal_ne_nil (n : Nat) : decimal n ≠ [] := by
  rw [decimal_eq]; exact fmtDigits_ne_nil n n

theorem parseDigits_decimal (n : Nat) (hn : n ≤ maxUint64) :
    parseDigits 0 (decimal n) = .ok n := by
  rw [decimal_eq]; exact parseDigits_fmtDigits n n (Nat.le_refl n) hn

theorem Atoi_digits (s : Bytes) (n : Nat) (hne : s ≠ []) (hd : ∀ b ∈ s, isDigit b)
    (hp : parseDigits 0 s = .ok n) (hn : n ≤ maxInt) : Atoi s = .ok (n : Int) := by
  cases s with
  | nil => exact absurd rfl hne
  | cons c t =>
    have hc : isDigit c := hd c (by simp)
    unfold isDigit at hc
    have h45 : c ≠ 45 := by omega
    have h43 : c ≠ 43 := by omega
    simp only [Atoi, h45, h43, or_self, if_false, hp]
    simp [hn, Nat.not_lt.mpr hn]

theorem Atoi_decimal (n : Nat) (hn : n ≤ maxInt) : Atoi (decimal n) = .ok (n : Int) :=
  Atoi_digits _ n (decimal_ne_nil n) (decimal_digits n)
    (parseDigits_decimal n (by unfold maxInt at hn; unfold maxUint64; omega)) hn

/-! ## Reading a length token -/

theorem spaceWidth_digit (b : Nat) (t : Bytes) (hb : isDigit b) : spaceWidth (b :: t) = 0 := by
  unfold isDigit at hb
  unfold spaceWidth
  have h1 : ¬ ((9 ≤ b ∧ b ≤ 13) ∨ b = 32) := by omega
  have h2 : b ≠ 0xC2 := by omega
  have h3 : b ≠ 0xE1 := by omega
  have h4 : b ≠ 0xE2 := by omega
  have h5 : b ≠ 0xE3 := by omega
  simp only [h1, h2, h3, h4, h5, if_false]

theorem spaceWidth_third (d c b : Nat) (hb : b < 128) : spaceWidth [d, c, b] ≠ 3 := by
  unfold spaceWidth
  have e1 : ¬ (c = 0x9A ∧ b = 0x80) := by omega
  have e2 : ¬ (c = 0x80 ∧ ((0x80 ≤ b ∧ b ≤ 0x8A) ∨ b = 0xA8 ∨ b = 0xA9 ∨ b = 0xAF)) := by omega
  have e3 : ¬ (c = 0x81 ∧ b = 0x9F) := by omega
  have e4 : ¬ (c = 0x80 ∧ b = 0x80) := by omega
  simp only [e1, e2, e3, e4, if_false]
  repeat' split
  all_goals omega

theorem spaceWidthEnd_digit (b : Nat) (t : Bytes) (hb : isDigit b) :
    spaceWidthEnd (b :: t) = 0 := by
  unfold isDigit at hb
  have h1 : ¬ ((9 ≤ b ∧ b ≤ 13) ∨ b = 32) := by omega
  cases t with
  | nil => simp [spaceWidthEnd, h1]
  | cons c u =>
    have h2 : ¬ (c = 0xC2 ∧ (b = 0x85 ∨ b = 0xA0)) := by omega
    cases u with
    | nil => simp [spaceWidthEnd, h1, h2]
    | cons d w =>
      have h3 := spaceWidth_third d c b (by omega)
      simp [spaceWidthEnd, h1, h2, h3]

theorem trimLeft_digit (fuel b : Nat) (t : Bytes) (hb : isDigit b) :
    trimLeft fuel (b :: t) = b :: t := by
  cases fuel with
  | zero => rfl
  | succ k => simp [trimLeft, spaceWidth_digit b t hb]

theorem trimRightRev_digit (fuel b : Nat) (t : Bytes) (hb : isDigit b) :
    trimRightRev fuel (b :: t) = b :: t := by
  cases fuel with
  | zero => rfl
  | succ k => simp [trimRightRev, spaceWidthEnd_digit b t hb]

theorem TrimSpace_token (s : Bytes) (hne : s ≠ []) (hd : ∀ b ∈ s, isDigit b) :
    TrimSpace (s ++ [32]) = s := by
  obtain ⟨b, t, rfl⟩ := List.exists_cons_of_ne_nil hne
  have hb : isDigit b := hd b (by simp)
  obtain ⟨e, u, hrev⟩ := List.exists_cons_of_ne_nil
    (show (b :: t).reverse ≠ [] by simp)
  have he : isDigit e := hd e (by
    have : e ∈ (b :: t).reverse := by rw [hrev]; simp
    exact List.mem_reverse.mp this)
  unfold TrimSpace
  simp only [List.cons_append, trimLeft_digit _ b _ hb]
  have hr : (b :: (t ++ [32])).reverse = 32 :: (b :: t).reverse := by simp
  rw [hr, hrev]
  simp only [List.length_cons, trimRightRev]
  have hs : spaceWidthEnd (32 :: e :: u) = 1 := by simp [spaceWidthEnd]
  simp only [hs, List.drop_succ_cons, List.drop_zero, one_ne_zero, if_false]
  rw [trimRightRev_digit _ e u he, ← hrev, List.reverse_reverse]

theorem ReadString_token (tok rest : Bytes) (h : ∀ b ∈ tok, b ≠ 32) :
    ReadString 32 (tok ++ 32 :: rest) = (tok ++ [32], rest, none) := by
  induction tok with
  | nil => simp [ReadString]
  | cons b t ih =>
    have hb : b ≠ 32 := h b (by simp)
    have ht : ∀ x ∈ t, x ≠ 32 := fun x hx => h x (by simp [hx])
    simp [ReadString, hb, ih ht]

theorem ReadFull_exact (v rest : Bytes) : ReadFull v.length (v ++ rest) = (v, rest, none) := by
  simp [ReadFull]

theorem readLen_decimal (n : Nat) (hn : n ≤ maxInt) (rest : Bytes) :
    readLen (decimal n ++ 32 :: rest) = (rest, (n : Int), none) := by
  have hd := decimal_digits n
  have h32 : ∀ b ∈ decimal n, b ≠ 32 := fun b hb => by
    have := hd b hb
    unfold isDigit at this
    omega
  have hne : decimal n ≠ [45] := fun h => by
    have := hd 45 (by rw [h]; simp)
    unfold isDigit at this
    omega
  simp [readLen, ReadString_token _ _ h32, TrimSpace_token _ (decimal_ne_nil n) hd, hne,
    Atoi_decimal n hn]

theorem maxAlloc_le_maxInt : maxAlloc ≤ maxInt := by decide

theorem not_makePanics (n : Nat) (hn : n ≤ maxAlloc) : ¬ makePanics (n : Int) := by
  unfold makePanics
  omega

theorem recvResp_decimal (out v rest : Bytes) (hv : v.length ≤ maxAlloc) :
    TcpClient.recvResp ⟨out, decimal v.length ++ 32 :: (v ++ rest)⟩
      = .returned (⟨out, rest⟩, v, none) := by
  have hi : v.length ≤ maxInt := Nat.le_trans hv maxAlloc_le_maxInt
  have hm := not_makePanics v.length hv
  simp only [TcpClient.recvResp, readLen_decimal v.length hi, hm, if_false, Int.toNat_ofNat,
    ReadFull_exact]

/-- C1. Value round trip: when the reader holds the decimal length of `v`, a
space, the bytes of `v` and then `rest`, `recvResp` returns `v` with a nil
error and leaves exactly `rest` unread.  The length of `v` is one that a Go
byte string can have (at most `maxAlloc`). -/
theorem recvResp_value_roundtrip (out v rest : Bytes) (hv : v.length ≤ maxAlloc) :
    TcpClient.recvResp ⟨out, decimal v.length ++ 32 :: (v ++ rest)⟩
      = .returned (⟨out, rest⟩, v, none) :=
  recvResp_decimal out v rest hv

/-- Instance of C1 at the value "a b\n\x00" followed by the unread bytes "7 ". -/
theorem recvResp_value_roundtrip_witness :
    [97, 32, 98, 10, 0].length ≤ maxAlloc ∧
    TcpClient.recvResp ⟨[], decimal 5 ++ 32 :: ([97, 32, 98, 10, 0] ++ [55, 32])⟩
      = .returned (⟨[], [55, 32]⟩, [97, 32, 98, 10, 0], none) :=
  ⟨by decide, recvResp_value_roundtrip [] [97, 32, 98, 10, 0] [55, 32] (by decide)⟩

/-! ## Error responses -/

theorem parseDigits_trailing_space (s : Bytes) (acc : Nat) :
    ∃ err, parseDigits acc (s ++ [32]) = .error err := by
  rw [parseDigits_append]
  cases parseDigits acc s with
  | error err => exact ⟨err, rfl⟩
  | ok v => exact ⟨.badNumber, by simp [Except.bind, parseDigits]⟩

theorem Atoi_trailing_space (s : Bytes) (hne : s ≠ []) (hd : ∀ b ∈ s, isDigit b) :
    ∃ err, Atoi (s ++ [32]) = .error err := by
  obtain ⟨c, t, rfl⟩ := List.exists_cons_of_ne_nil hne
  have hc : isDigit c := hd c (by simp)
  unfold isDigit at hc
  have h45 : c ≠ 45 := by omega
  have h43 : c ≠ 43 := by omega
  obtain ⟨err, hp⟩ := parseDigits_trailing_space (c :: t) 0
  simp only [List.cons_append] at hp
  exact ⟨err, by simp only [List.cons_append, Atoi, h45, h43, or_self, if_false, hp]⟩

theorem readLen_dash (rest : Bytes) : readLen (45 :: 32 :: rest) = (rest, 0, some .tcpErr) := by
  have ht : TrimSpace [45, 32] = [45] := by decide
  simp [readLen, ReadString, ht]

theorem ReadString_space_last (r tok rest : Bytes)
    (h : ReadString 32 r = (tok, rest, none)) : ∃ pre, tok = pre ++ [32] := by
  induction r generalizing tok rest with
  | nil => simp [ReadString] at h
  | cons b t ih =>
    simp only [ReadString] at h
    split at h
    · rename_i hb
      simp only [Prod.mk.injEq, and_true] at h
      exact ⟨[], by rw [← h.1, hb]; rfl⟩
    · simp only [Prod.mk.injEq] at h
      obtain ⟨pre, hpre⟩ := ih (ReadString 32 t).1 (ReadString 32 t).2.1
        (by rw [← h.2.2])
      exact ⟨b :: pre, by rw [← h.1, hpre, List.cons_append]⟩

theorem Atoi_space_last (pre : Bytes) : ∃ err, Atoi (pre ++ [32]) = .error err := by
  cases pre with
  | nil => exact ⟨.badNumber, rfl⟩
  | cons c t =>
    by_cases hs : c = 45 ∨ c = 43
    · obtain ⟨err, hp⟩ := parseDigits_trailing_space t 0
      cases t with
      | nil =>
        refine ⟨err, ?_⟩
        simp only [List.nil_append] at hp
        simp only [List.cons_append, List.nil_append, Atoi, hs, if_true, hp]
      | cons x u =>
        refine ⟨err, ?_⟩
        simp only [List.cons_append] at hp
        simp only [List.cons_append, Atoi, hs, if_true, hp]
    · obtain ⟨err, hp⟩ := parseDigits_trailing_space (c :: t) 0
      simp only [List.cons_append] at hp
      exact ⟨err, by simp only [List.cons_append, Atoi, hs, if_false, hp]⟩

/-- Function `readABNFBytesArray` never returns a nil error: the token that
`ReadString` returns ends with the space, which `Atoi` rejects. -/
theorem readABNFBytesArray_fails (r : Bytes) :
    ∃ rest err, readABNFBytesArray r = .returned (rest, [], some err) := by
  unfold readABNFBytesArray
  rcases h : ReadString 32 r with ⟨tok, rest, _ | err⟩
  · obtain ⟨pre, rfl⟩ := ReadString_space_last r tok rest h
    obtain ⟨err, he⟩ := Atoi_space_last pre
    exact ⟨rest, .wrapped err, by simp only [he]⟩
  · exact ⟨rest, err, rfl⟩

theorem readABNFBytesArray_decimal (n : Nat) (rest : Bytes) :
    ∃ err, readABNFBytesArray (decimal n ++ 32 :: rest) = .returned (rest, [], some err) := by
  have hd := decimal_digits n
  have h32 : ∀ b ∈ decimal n, b ≠ 32 := fun b hb => by
    have := hd b hb
    unfold isDigit at this
    omega
  obtain ⟨err, he⟩ := Atoi_trailing_space _ (decimal_ne_nil n) hd
  exact ⟨.wrapped err, by simp [readABNFBytesArray, ReadString_token _ _ h32, he]⟩

/-- C2. An error response is not decoded: when the reader holds "- ", the
decimal length of `e`, a space and the bytes of `e`, `recvResp` returns the
empty string with a non-nil error (the length token reaches `Atoi` with its
trailing space) and leaves `e` unread, for every `e` including the empty one. -/
theorem recvResp_error_response_not_decoded (out e rest : Bytes) :
    ∃ err, TcpClient.recvResp ⟨out, 45 :: 32 :: (decimal e.length ++ 32 :: (e ++ rest))⟩
      = .returned (⟨out, e ++ rest⟩, [], some err) := by
  obtain ⟨err, he⟩ := readABNFBytesArray_decimal e.length (e ++ rest)
  exact ⟨err, by simp [TcpClient.recvResp, readLen_dash, he]⟩

/-- C8. A negative length token makes `recvResp` panic: on the response "-5 "
the token parses as the integer -5 and `make([]byte, -5)` panics. -/
theorem recvResp_negative_length_panics :
    TcpClient.recvResp ⟨[], [45, 53, 32]⟩ = .panicked ⟨[], []⟩ := by
  decide

/-! ## Requests -/

/-- C7. Request encoding: `SendGet` writes "G", the decimal key length, a space
and the key; `SendDel` the same with "D"; `SendSet` writes "S", the decimal key
length, a space, the decimal value length, a space, the key and the value with
nothing in between.  The reader is not touched. -/
theorem send_encoding (c : TcpClient) (k v : Bytes) :
    c.SendGet k = ⟨c.out ++ ([71] ++ decimal k.length ++ [32] ++ k), c.r⟩ ∧
    c.SendDel k = ⟨c.out ++ ([68] ++ decimal k.length ++ [32] ++ k), c.r⟩ ∧
    c.SendSet k v
      = ⟨c.out ++ ([83] ++ decimal k.length ++ [32] ++ decimal v.length ++ [32] ++ k ++ v),
          c.r⟩ := by
  simp [TcpClient.SendGet, TcpClient.SendDel, TcpClient.SendSet, TcpClient.Write,
    fmtInt_natCast]

/-! ## Pipelined execution -/

theorem send_r (c c1 : TcpClient) (cmd : Cmd) (h : c.send cmd = some c1) : c1.r = c.r := by
  unfold TcpClient.send at h
  split at h
  · cases h; rfl
  · split at h
    · cases h; rfl
    · split at h
      · cases h; rfl
      · cases h

theorem pipelineSend_r (cmds : List Cmd) : ∀ c : TcpClient, (c.pipelineSend cmds).r = c.r := by
  induction cmds with
  | nil => intro c; rfl
  | cons cmd rest ih =>
    intro c
    simp only [TcpClient.pipelineSend]
    cases h : c.send cmd with
    | none => exact ih c
    | some c1 => simp only [ih c1]; exact send_r c c1 cmd h

/-- Whatever the batch, a first response that is a well-formed value makes
`PipelineRun` panic right after it was stored in the first command. -/
theorem PipelineRun_value_response_panics (c : TcpClient) (cmd : Cmd) (rest : List Cmd)
    (p more : Bytes) (hp : p.length ≤ maxAlloc)
    (hr : c.r = decimal p.length ++ 32 :: (p ++ more)) :
    c.PipelineRun (cmd :: rest)
      = .panicked (⟨(c.pipelineSend (cmd :: rest)).out, more⟩,
          { cmd with Value := p, Error := none } :: rest) := by
  have hrecv : (c.pipelineSend (cmd :: rest)).recvResp
      = .returned (⟨(c.pipelineSend (cmd :: rest)).out, more⟩, p, none) := by
    have h := recvResp_decimal (c.pipelineSend (cmd :: rest)).out p more hp
    rw [← hr, ← pipelineSend_r (cmd :: rest) c] at h
    exact h
  simp only [TcpClient.PipelineRun, List.length_cons, Nat.succ_ne_zero, if_false,
    TcpClient.pipelineRecv, hrecv]

/-- C6. A batch of one GET command whose response "1 a" is a well-formed value:
`PipelineRun` stores the value with a nil error in the command and then panics
in the log call of the read loop instead of completing. -/
theorem PipelineRun_panics_on_value_response :
    TcpClient.PipelineRun ⟨[], [49, 32, 97]⟩ [⟨GET, [107], [], none⟩]
      = .panicked (⟨[71, 49, 32, 107], []⟩, [⟨GET, [107], [97], none⟩]) := by
  decide

/-! ## Latency histogram -/

theorem addStatistic_length (r : result) (b : Nat) (s : statistic) :
    (r.addStatistic b s).statBuckets.length = max r.statBuckets.length (b + 1) := by
  unfold result.addStatistic
  by_cases h : (b : Int) > (r.statBuckets.length : Int) - 1
  · simp only [h, if_true, List.length_set, List.length_append, List.length_replicate]
    omega
  · simp only [h, if_false, List.length_set]
    omega

/-- What `addStatistic` leaves at the bucket it is given: the statistic it is
given, whatever the bucket held before. -/
theorem addStatistic_at (r : result) (b : Nat) (s : statistic) :
    countAt (r.addStatistic b s) b = s.count ∧ timeAt (r.addStatistic b s) b = s.time := by
  have hlen := addStatistic_length r b s
  have hb : b < (r.addStatistic b s).statBuckets.length := by omega
  unfold countAt timeAt
  rw [List.getD_eq_getElem _ _ hb]
  unfold result.addStatistic
  simp

theorem addBuckets_counters (bs : List statistic) :
    ∀ (r : result) (b : Nat),
      (r.addBuckets b bs).getCount = r.getCount ∧
      (r.addBuckets b bs).missCount = r.missCount ∧
      (r.addBuckets b bs).setCount = r.setCount := by
  induction bs with
  | nil => intro r b; simp [result.addBuckets]
  | cons s rest ih =>
    intro r b
    simp only [result.addBuckets]
    have h := ih (r.addStatistic b s) (b + 1)
    simpa [result.addStatistic] using h

/-- The three counters after `addResult` are the sums of the previous ones. -/
theorem addResult_counters (r src : result) :
    (r.addResult src).getCount = r.getCount + src.getCount ∧
    (r.addResult src).missCount = r.missCount + src.missCount ∧
    (r.addResult src).setCount = r.setCount + src.setCount := by
  have h := addBuckets_counters src.statBuckets r 0
  simp [result.addResult, h]

/-- C3. Two durations of 1.5 ms and 1.2 ms, both of bucket 1, recorded on an
empty result: bucket 1 ends with count 1 and time 1.2 ms, the values of the
last call, while 2 durations with sum 2.7 ms were recorded in that bucket. -/
theorem addDuration_overwrites_bucket :
    recordAll result.empty [(1500000, SET), (1200000, SET)]
      = ⟨0, 0, 2, [⟨0, 0⟩, ⟨1, 1200000⟩]⟩ ∧
    countAt (recordAll result.empty [(1500000, SET), (1200000, SET)]) 1 = 1 ∧
    recordedCount [(1500000, SET), (1200000, SET)] 1 = 2 ∧
    timeAt (recordAll result.empty [(1500000, SET), (1200000, SET)]) 1 = 1200000 ∧
    recordedTime [(1500000, SET), (1200000, SET)] 1 = 2700000 := by
  decide

/-- C4. With `A` holding one duration of 100 ns and `B` one of 1000100 ns,
`A.addResult(B)` has count 0 and time 0 in bucket 0 and `B.addResult(A)` has
count 1 and time 100 ns there: the two merge orders differ. -/
theorem addResult_order_matters :
    ((result.empty.addDuration 100 SET).addResult (result.empty.addDuration 1000100 SET)).statBuckets
      = [⟨0, 0⟩, ⟨1, 1000100⟩] ∧
    ((result.empty.addDuration 1000100 SET).addResult (result.empty.addDuration 100 SET)).statBuckets
      = [⟨1, 100⟩, ⟨1, 1000100⟩] ∧
    (result.empty.addDuration 100 SET).addResult (result.empty.addDuration 1000100 SET)
      ≠ (result.empty.addDuration 1000100 SET).addResult (result.empty.addDuration 100 SET) := by
  decide

/-- C5. With `r` holding one duration of 100 ns and `src` one of 300 ns, both
of bucket 0, after `r.addResult(src)` bucket 0 has count 1 and time 300 ns,
the values of `src`, not the sums 2 and 400 ns. -/
theorem addResult_overwrites_bucket :
    countAt (result.empty.addDuration 100 SET) 0 = 1 ∧
    countAt (result.empty.addDuration 300 SET) 0 = 1 ∧
    countAt ((result.empty.addDuration 100 SET).addResult (result.empty.addDuration 300 SET)) 0 = 1 ∧
    timeAt (result.empty.addDuration 100 SET) 0 = 100 ∧
    timeAt (result.empty.addDuration 300 SET) 0 = 300 ∧
    timeAt ((result.empty.addDuration 100 SET).addResult (result.empty.addDuration 300 SET)) 0
      = 300 := by
  decide

/-- C10. Two SET requests of 0.3 ms and 0.4 ms recorded on an empty result:
`setCount` is 2, `getCount` and `missCount` are 0, and the counts of the
latency buckets add up to 1, not to 2. -/
theorem statCountSum_below_setCount :
    (recordAll result.empty [(300000, SET), (400000, SET)]).setCount = 2 ∧
    (recordAll result.empty [(300000, SET), (400000, SET)]).getCount = 0 ∧
    (recordAll result.empty [(300000, SET), (400000, SET)]).missCount = 0 ∧
    statCountSum (recordAll result.empty [(300000, SET), (400000, SET)]).statBuckets = 1 := by
  decide

/-! ## Classification of responses -/

theorem addDuration_counters (r : result) (d : Nat) :
    ((r.addDuration d MISS).missCount = r.missCount + 1 ∧
      (r.addDuration d MISS).getCount = r.getCount ∧
      (r.addDuration d MISS).setCount = r.setCount) ∧
    ((r.addDuration d GET).getCount = r.getCount + 1 ∧
      (r.addDuration d GET).missCount = r.missCount ∧
      (r.addDuration d GET).setCount = r.setCount) ∧
    ((r.addDuration d SET).setCount = r.setCount + 1 ∧
      (r.addDuration d SET).getCount = r.getCount ∧
      (r.addDuration d SET).missCount = r.missCount) := by
  have h1 : MISS ≠ GET := by decide
  have h2 : MISS ≠ SET := by decide
  have h3 : SET ≠ GET := by decide
  simp [result.addDuration, result.addStatistic, h1, h2, h3]

theorem pipelineLoop_cons (d : Nat) (expect : List Bytes) (i : Nat) (c : Cmd) (cs : List Cmd)
    (r : result) :
    pipelineLoop d expect i (c :: cs) r
      = if c.Name = GET then
          if c.Value = [] then pipelineLoop d expect (i + 1) cs (r.addDuration d MISS)
          else if c.Value ≠ expect.getD i [] then .panicked r
          else pipelineLoop d expect (i + 1) cs (r.addDuration d c.Name)
        else pipelineLoop d expect (i + 1) cs (r.addDuration d c.Name) := by
  simp only [pipelineLoop]

theorem pipelineLoop_append (d : Nat) (expect : List Bytes) (xs : List Cmd) :
    ∀ (i : Nat) (ys : List Cmd) (r r1 : result),
      pipelineLoop d expect i xs r = .returned r1 →
      pipelineLoop d expect i (xs ++ ys) r = pipelineLoop d expect (i + xs.length) ys r1 := by
  induction xs with
  | nil =>
    intro i ys r r1 h
    simp only [pipelineLoop, Outcome.returned.injEq] at h
    simp [h]
  | cons c cs ih =>
    intro i ys r r1 h
    have hi : i + (c :: cs).length = i + 1 + cs.length := by simp; omega
    rw [hi, List.cons_append, pipelineLoop_cons]
    rw [pipelineLoop_cons] at h
    by_cases hn : c.Name = GET
    · rw [if_pos hn] at h ⊢
      by_cases hv : c.Value = []
      · rw [if_pos hv] at h ⊢
        exact ih _ _ _ _ h
      · rw [if_neg hv] at h ⊢
        by_cases he : c.Value ≠ expect.getD i []
        · rw [if_pos he] at h
          cases h
        · rw [if_neg he] at h ⊢
          exact ih _ _ _ _ h
    · rw [if_neg hn] at h ⊢
      exact ih _ _ _ _ h

theorem expectOf_getD (pre post : List Cmd) (c : Cmd) (h : c.Name = GET) :
    (expectOf (pre ++ c :: post)).getD pre.length [] = c.Value := by
  unfold expectOf
  rw [List.map_append, List.getD_append_right _ _ _ _ (by simp)]
  simp [h]

theorem pipeline_split {σ : Type} (cli : Client σ) (st st1 : σ) (pre post pre1 post1 : List Cmd)
    (c c1 : Cmd) (r r1 : result) (d : Nat)
    (hrun : cli.PipelineRun st (pre ++ c :: post) = .returned (st1, pre1 ++ c1 :: post1))
    (hlen : pre1.length = pre.length)
    (hpre : pipelineLoop d (expectOf (pre ++ c :: post)) 0 pre1 r = .returned r1) :
    pipeline cli st (pre ++ c :: post) r d
      = (pipelineLoop d (expectOf (pre ++ c :: post)) pre.length (c1 :: post1) r1).map
          (fun r2 => (st1, pre1 ++ c1 :: post1, r2)) (fun r2 => (st1, pre1 ++ c1 :: post1, r2)) := by
  unfold pipeline
  simp only [hrun]
  rw [pipelineLoop_append d _ pre1 0 (c1 :: post1) r r1 hpre, hlen, Nat.zero_add]

/-- Classification in `run` and `pipeline` for any implementation of `Client`
whose method returns.  In `run`, when the client returns and has left
the name of the command alone: a GET whose response is empty is recorded as a
miss; a GET whose response is non-empty and equal to the value the command was
built with is recorded as a get; a GET whose response is non-empty and
different panics with the result unchanged; a SET is recorded as a set.  In
`pipeline`, the same holds for the command at any position of the batch once
the commands before it were recorded without a panic, and the loop goes on
with the commands after it.  Recording as miss, get or set adds one to
`missCount`, `getCount` or `setCount` and leaves the other two counters. -/
theorem classification_when_client_returns :
    (∀ {σ : Type} (cli : Client σ) (st st1 : σ) (c c1 : Cmd) (r : result) (d : Nat),
      cli.Run st c = .returned (st1, c1) → c1.Name = c.Name →
      (c.Name = GET → c1.Value = [] →
        run cli st c r d = .returned (st1, c1, r.addDuration d MISS)) ∧
      (c.Name = GET → c1.Value ≠ [] → c1.Value = c.Value →
        run cli st c r d = .returned (st1, c1, r.addDuration d GET)) ∧
      (c.Name = GET → c1.Value ≠ [] → c1.Value ≠ c.Value →
        run cli st c r d = .panicked (st1, c1, r)) ∧
      (c.Name = SET → run cli st c r d = .returned (st1, c1, r.addDuration d SET))) ∧
    (∀ {σ : Type} (cli : Client σ) (st st1 : σ) (pre post pre1 post1 : List Cmd) (c c1 : Cmd)
        (r r1 : result) (d : Nat),
      cli.PipelineRun st (pre ++ c :: post) = .returned (st1, pre1 ++ c1 :: post1) →
      pre1.length = pre.length → c1.Name = c.Name →
      pipelineLoop d (expectOf (pre ++ c :: post)) 0 pre1 r = .returned r1 →
      (c.Name = GET → c1.Value = [] →
        pipeline cli st (pre ++ c :: post) r d
          = (pipelineLoop d (expectOf (pre ++ c :: post)) (pre.length + 1) post1
              (r1.addDuration d MISS)).map
              (fun r2 => (st1, pre1 ++ c1 :: post1, r2))
              (fun r2 => (st1, pre1 ++ c1 :: post1, r2))) ∧
      (c.Name = GET → c1.Value ≠ [] → c1.Value = c.Value →
        pipeline cli st (pre ++ c :: post) r d
          = (pipelineLoop d (expectOf (pre ++ c :: post)) (pre.length + 1) post1
              (r1.addDuration d GET)).map
              (fun r2 => (st1, pre1 ++ c1 :: post1, r2))
              (fun r2 => (st1, pre1 ++ c1 :: post1, r2))) ∧
      (c.Name = GET → c1.Value ≠ [] → c1.Value ≠ c.Value →
        pipeline cli st (pre ++ c :: post) r d = .panicked (st1, pre1 ++ c1 :: post1, r1)) ∧
      (c.Name = SET →
        pipeline cli st (pre ++ c :: post) r d
          = (pipelineLoop d (expectOf (pre ++ c :: post)) (pre.length + 1) post1
              (r1.addDuration d SET)).map
              (fun r2 => (st1, pre1 ++ c1 :: post1, r2))
              (fun r2 => (st1, pre1 ++ c1 :: post1, r2)))) ∧
    (∀ (r : result) (d : Nat),
      ((r.addDuration d MISS).missCount = r.missCount + 1 ∧
        (r.addDuration d MISS).getCount = r.getCount ∧
        (r.addDuration d MISS).setCount = r.setCount) ∧
      ((r.addDuration d GET).getCount = r.getCount + 1 ∧
        (r.addDuration d GET).missCount = r.missCount ∧
        (r.addDuration d GET).setCount = r.setCount) ∧
      ((r.addDuration d SET).setCount = r.setCount + 1 ∧
        (r.addDuration d SET).getCount = r.getCount ∧
        (r.addDuration d SET).missCount = r.missCount)) := by
  have hsg : SET ≠ GET := by decide
  refine ⟨?_, ?_, addDuration_counters⟩
  · intro σ cli st st1 c c1 r d hrun hname
    refine ⟨?_, ?_, ?_, ?_⟩
    · intro hg hv
      simp [run, hrun, hname, hg, hv]
    · intro hg hv he
      simp [run, hrun, hname, hg, hv, he]
      intro h; exact absurd (he ▸ h) hv
    · intro hg hv he
      simp [run, hrun, hname, hg, hv, he]
    · intro hs
      simp [run, hrun, hname, hs, hsg]
  · intro σ cli st st1 pre post pre1 post1 c c1 r r1 d hrun hlen hname hpre
    have hsplit := pipeline_split cli st st1 pre post pre1 post1 c c1 r r1 d hrun hlen hpre
    rw [pipelineLoop_cons, hname] at hsplit
    refine ⟨?_, ?_, ?_, ?_⟩
    · intro hg hv
      rw [hsplit, if_pos hg, if_pos hv]
    · intro hg hv he
      have hx : ¬ (c1.Value ≠ (expectOf (pre ++ c :: post)).getD pre.length []) := by
        rw [expectOf_getD pre post c hg]; exact not_not.mpr he
      rw [hsplit, if_pos hg, if_neg hv, if_neg hx, hg]
    · intro hg hv he
      have hx : c1.Value ≠ (expectOf (pre ++ c :: post)).getD pre.length [] := by
        rw [expectOf_getD pre post c hg]; exact he
      rw [hsplit, if_pos hg, if_neg hv, if_pos hx]
      rfl
    · intro hs
      have hn : ¬ (c.Name = GET) := by rw [hs]; exact hsg
      rw [hsplit, if_neg hn, hs]

/-- Instances with the TCP client: a GET of key "7" built with the value
"abcd" that is answered "zzzz" panics in `run`, answered "abcd" is recorded
as a get, answered with the empty value is recorded as a miss; in `pipeline`
a GET whose response could not be decoded is recorded as a miss. -/
theorem classification_instances :
    run tcpClient ⟨[], [52, 32, 122, 122, 122, 122]⟩ ⟨GET, [55], [97, 98, 99, 100], none⟩
        result.empty 5
      = .panicked (⟨[71, 49, 32, 55], []⟩, ⟨GET, [55], [122, 122, 122, 122], none⟩,
          result.empty) ∧
    run tcpClient ⟨[], [52, 32, 97, 98, 99, 100]⟩ ⟨GET, [55], [97, 98, 99, 100], none⟩
        result.empty 5
      = .returned (⟨[71, 49, 32, 55], []⟩, ⟨GET, [55], [97, 98, 99, 100], none⟩,
          result.empty.addDuration 5 GET) ∧
    run tcpClient ⟨[], [48, 32]⟩ ⟨GET, [55], [97, 98, 99, 100], none⟩ result.empty 5
      = .returned (⟨[71, 49, 32, 55], []⟩, ⟨GET, [55], [], none⟩,
          result.empty.addDuration 5 MISS) ∧
    pipeline tcpClient ⟨[], [120, 32]⟩ [⟨GET, [55], [97, 98, 99, 100], none⟩] result.empty 5
      = .returned (⟨[71, 49, 32, 55], []⟩, [⟨GET, [55], [], some (.wrapped .badNumber)⟩],
          result.empty.addDuration 5 MISS) :=
  ⟨(classification_when_client_returns.1 tcpClient ⟨[], [52, 32, 122, 122, 122, 122]⟩ ⟨[71, 49, 32, 55], []⟩
      ⟨GET, [55], [97, 98, 99, 100], none⟩ ⟨GET, [55], [122, 122, 122, 122], none⟩
      result.empty 5 (by decide) (by decide)).2.2.1 (by decide) (by decide) (by decide),
   (classification_when_client_returns.1 tcpClient ⟨[], [52, 32, 97, 98, 99, 100]⟩ ⟨[71, 49, 32, 55], []⟩
      ⟨GET, [55], [97, 98, 99, 100], none⟩ ⟨GET, [55], [97, 98, 99, 100], none⟩
      result.empty 5 (by decide) (by decide)).2.1 (by decide) (by decide) (by decide),
   (classification_when_client_returns.1 tcpClient ⟨[], [48, 32]⟩ ⟨[71, 49, 32, 55], []⟩
      ⟨GET, [55], [97, 98, 99, 100], none⟩ ⟨GET, [55], [], none⟩
      result.empty 5 (by decide) (by decide)).1 (by decide) (by decide),
   (classification_when_client_returns.2.1 tcpClient ⟨[], [120, 32]⟩ ⟨[71, 49, 32, 55], []⟩ [] [] [] []
      ⟨GET, [55], [97, 98, 99, 100], none⟩ ⟨GET, [55], [], some (.wrapped .badNumber)⟩
      result.empty result.empty 5 (by decide) (by decide) (by decide) (by decide)).1
      (by decide) (by decide)⟩

/-! ## Shape of the bucket sequence -/

theorem addStatistic_buckets (r : result) (b : Nat) (s : statistic)
    (hb : b ≤ r.statBuckets.length) :
    (r.addStatistic b s).statBuckets
      = r.statBuckets.take b ++ s :: r.statBuckets.drop (b + 1) := by
  unfold result.addStatistic
  by_cases h : (b : Int) > (r.statBuckets.length : Int) - 1
  · have hlen : b = r.statBuckets.length := by omega
    simp only [h, if_true]
    rw [List.set_eq_take_append_cons_drop]
    have h1 : b < (r.statBuckets ++ List.replicate (b + 1 - r.statBuckets.length)
        ({ count := 0, time := 0 } : statistic)).length := by
      simp only [List.length_append, List.length_replicate]; omega
    simp only [h1, if_true]
    rw [List.take_append_of_le_length (by omega), List.drop_of_length_le (by
      simp only [List.length_append, List.length_replicate]; omega)]
    rw [List.drop_of_length_le (by omega)]
  · have hlt : b < r.statBuckets.length := by omega
    simp only [h, if_false]
    rw [List.set_eq_take_append_cons_drop]
    simp only [hlt, if_true]

theorem addBuckets_buckets (bs : List statistic) :
    ∀ (r : result) (b : Nat), b ≤ r.statBuckets.length →
      (r.addBuckets b bs).statBuckets
        = r.statBuckets.take b ++ bs ++ r.statBuckets.drop (b + bs.length) := by
  induction bs with
  | nil =>
    intro r b _
    simp [result.addBuckets]
  | cons s rest ih =>
    intro r b hb
    have hstep := addStatistic_buckets r b s hb
    have hlen : b + 1 ≤ (r.addStatistic b s).statBuckets.length := by
      rw [hstep]; simp only [List.length_append, List.length_take, List.length_cons]; omega
    simp only [result.addBuckets]
    rw [ih (r.addStatistic b s) (b + 1) hlen, hstep]
    have ht : (r.statBuckets.take b).length = b := by
      simp only [List.length_take]; omega
    have e1 : List.take (b + 1) (List.take b r.statBuckets ++ s :: List.drop (b + 1) r.statBuckets)
        = List.take b r.statBuckets ++ [s] := by
      rw [List.take_append_eq_append_take, ht]
      simp
    have e2 : List.drop (b + 1 + rest.length)
        (List.take b r.statBuckets ++ s :: List.drop (b + 1) r.statBuckets)
        = List.drop (b + (s :: rest).length) r.statBuckets := by
      rw [List.drop_append_eq_append_drop, ht]
      have h0 : List.drop (b + 1 + rest.length) (List.take b r.statBuckets) = [] :=
        List.drop_of_length_le (by omega)
      have h1 : b + 1 + rest.length - b = rest.length + 1 := by omega
      rw [h0, h1, List.nil_append, List.drop_succ_cons, List.drop_drop, List.length_cons]
      congr 1; omega
    rw [e1, e2]
    simp

/-- Buckets after `addResult`: the buckets of `src`, then the buckets of `r`
beyond the length of `src`. -/
theorem addResult_buckets (r src : result) :
    (r.addResult src).statBuckets
      = src.statBuckets ++ r.statBuckets.drop src.statBuckets.length := by
  have h := addBuckets_buckets src.statBuckets r 0 (Nat.zero_le _)
  simpa [result.addResult] using h

theorem result_eq (a b : result) (h1 : a.getCount = b.getCount) (h2 : a.missCount = b.missCount)
    (h3 : a.setCount = b.setCount) (h4 : a.statBuckets = b.statBuckets) : a = b := by
  cases a; cases b; simp_all

theorem addStatistic_getD_other (r : result) (b b' : Nat) (s : statistic) (h : b' ≠ b) :
    (r.addStatistic b s).statBuckets.getD b' ⟨0, 0⟩ = r.statBuckets.getD b' ⟨0, 0⟩ := by
  unfold result.addStatistic
  simp only [List.getD_eq_getElem?_getD]
  rw [List.getElem?_set_ne (Ne.symm h)]
  split
  · by_cases hlt : b' < r.statBuckets.length
    · rw [List.getElem?_append_left hlt]
    · rw [List.getElem?_append_right (by omega), List.getElem?_eq_none (Nat.le_of_not_lt hlt)]
      by_cases h2 : b' - r.statBuckets.length < b + 1 - r.statBuckets.length
      · simp [List.getElem?_replicate, h2]
      · simp [List.getElem?_replicate, h2]
  · rfl

theorem addDuration_buckets (r : result) (d : Nat) (typ : Bytes) :
    (r.addDuration d typ).statBuckets = (r.addStatistic (bucketOf d) ⟨1, d⟩).statBuckets := by
  unfold result.addDuration bucketOf
  simp only
  split
  · rfl
  · split <;> rfl

theorem recordAll_length (calls : List (Nat × Bytes)) :
    ∀ r : result, calls ≠ [] →
      (recordAll r calls).statBuckets.length = max r.statBuckets.length (maxBucket calls + 1) := by
  induction calls with
  | nil => intro r h; exact absurd rfl h
  | cons c cs ih =>
    intro r _
    have hstep : (r.addDuration c.1 c.2).statBuckets.length
        = max r.statBuckets.length (bucketOf c.1 + 1) := by
      rw [addDuration_buckets, addStatistic_length]
    have hfold : recordAll r (c :: cs) = recordAll (r.addDuration c.1 c.2) cs := rfl
    have hmax : maxBucket (c :: cs) = max (bucketOf c.1) (maxBucket cs) := rfl
    rw [hfold, hmax]
    by_cases hcs : cs = []
    · subst hcs
      have h0 : maxBucket [] = 0 := rfl
      have h1 : recordAll (r.addDuration c.1 c.2) [] = r.addDuration c.1 c.2 := rfl
      rw [h1, hstep, h0]
      omega
    · rw [ih _ hcs, hstep]
      omega

/-! ## Merging results -/

/-- C11. Merge associativity: merging `B` into `A` and then `C` into the
outcome gives the same result (bucket sequence and the three counters) as
merging into `A` the result of merging `C` into `B`. -/
theorem addResult_assoc (A B C : result) :
    (A.addResult B).addResult C = A.addResult (B.addResult C) := by
  have hA := addResult_counters A B
  have hAB := addResult_counters (A.addResult B) C
  have hBC := addResult_counters B C
  have hR := addResult_counters A (B.addResult C)
  apply result_eq
  · rw [hAB.1, hA.1, hR.1, hBC.1]; omega
  · rw [hAB.2.1, hA.2.1, hR.2.1, hBC.2.1]; omega
  · rw [hAB.2.2, hA.2.2, hR.2.2, hBC.2.2]; omega
  · rw [addResult_buckets, addResult_buckets, addResult_buckets, addResult_buckets]
    rw [List.drop_append_eq_append_drop, List.drop_drop, List.append_assoc]
    congr 2
    simp only [List.length_append, List.length_drop]
    congr 1
    omega

/-- C13. Bucket sequence length: after a non-empty sequence of `addDuration`
calls on an empty result the bucket sequence has length (largest bucket index
recorded) + 1; `addStatistic`, `addDuration` and `addResult` never shorten the
bucket sequence, and they leave every bucket other than the ones they are
given as it was (`addStatistic` its bucket, `addDuration` the bucket of its
duration, `addResult` the bucket indices of the merged result), a missing
bucket counting as zero. -/
theorem bucket_sequence_length :
    (∀ calls : List (Nat × Bytes), calls ≠ [] →
      (recordAll result.empty calls).statBuckets.length = maxBucket calls + 1) ∧
    (∀ (r : result) (b : Nat) (s : statistic),
      r.statBuckets.length ≤ (r.addStatistic b s).statBuckets.length ∧
      ∀ b', b' ≠ b →
        (r.addStatistic b s).statBuckets.getD b' ⟨0, 0⟩ = r.statBuckets.getD b' ⟨0, 0⟩) ∧
    (∀ (r : result) (d : Nat) (typ : Bytes),
      r.statBuckets.length ≤ (r.addDuration d typ).statBuckets.length ∧
      ∀ b', b' ≠ bucketOf d →
        (r.addDuration d typ).statBuckets.getD b' ⟨0, 0⟩ = r.statBuckets.getD b' ⟨0, 0⟩) ∧
    (∀ (r src : result),
      r.statBuckets.length ≤ (r.addResult src).statBuckets.length ∧
      ∀ b', src.statBuckets.length ≤ b' →
        (r.addResult src).statBuckets.getD b' ⟨0, 0⟩ = r.statBuckets.getD b' ⟨0, 0⟩) := by
  refine ⟨?_, ?_, ?_, ?_⟩
  · intro calls h
    rw [recordAll_length calls result.empty h]
    simp [result.empty]
  · intro r b s
    refine ⟨?_, fun b' h => addStatistic_getD_other r b b' s h⟩
    rw [addStatistic_length]; omega
  · intro r d typ
    rw [addDuration_buckets]
    refine ⟨?_, fun b' h => addStatistic_getD_other r _ b' _ h⟩
    rw [addStatistic_length]; omega
  · intro r src
    rw [addResult_buckets]
    refine ⟨?_, ?_⟩
    · simp only [List.length_append, List.length_drop]; omega
    · intro b' h
      rw [List.getD_append_right _ _ _ _ h]
      simp only [List.getD_eq_getElem?_getD, List.getElem?_drop]
      congr 2; omega

/-- Instance of C13: durations of 2.5 ms, 0.3 ms and 1.2 ms give a bucket
sequence of length 3. -/
theorem bucket_sequence_length_witness :
    [(2500000, SET), (300000, GET), (1200000, MISS)] ≠ [] ∧
    (recordAll result.empty [(2500000, SET), (300000, GET), (1200000, MISS)]).statBuckets.length
      = maxBucket [(2500000, SET), (300000, GET), (1200000, MISS)] + 1 :=
  ⟨by decide, bucket_sequence_length.1 [(2500000, SET), (300000, GET), (1200000, MISS)]
    (by decide)⟩

/-! ## Counters -/

/-- C19. Counter accounting: a call `addDuration(d, typ)` adds one to `getCount`
when `typ` is "get", to `setCount` when `typ` is "set" and to `missCount` for
every other `typ`, and leaves the other two counters as they were; so a "del"
request is counted in `missCount`, like a "miss": `run` records a command that
is a DEL after the call of the client with `addDuration(d, "del")`. -/
theorem addDuration_counter_accounting :
    (∀ (r : result) (d : Nat) (typ : Bytes),
      (r.addDuration d typ).getCount = r.getCount + (if typ = GET then 1 else 0) ∧
      (r.addDuration d typ).setCount
        = r.setCount + (if typ = GET then 0 else if typ = SET then 1 else 0) ∧
      (r.addDuration d typ).missCount
        = r.missCount + (if typ = GET ∨ typ = SET then 0 else 1)) ∧
    (∀ (r : result) (d : Nat),
      ((r.addDuration d DEL).missCount = r.missCount + 1 ∧
        (r.addDuration d DEL).getCount = r.getCount ∧
        (r.addDuration d DEL).setCount = r.setCount) ∧
      ((r.addDuration d MISS).missCount = r.missCount + 1 ∧
        (r.addDuration d MISS).getCount = r.getCount ∧
        (r.addDuration d MISS).setCount = r.setCount)) ∧
    (∀ {σ : Type} (cli : Client σ) (st st1 : σ) (c c1 : Cmd) (r : result) (d : Nat),
      cli.Run st c = .returned (st1, c1) → c1.Name = DEL →
      run cli st c r d = .returned (st1, c1, r.addDuration d DEL)) := by
  have h1 : MISS ≠ GET := by decide
  have h2 : MISS ≠ SET := by decide
  have h3 : DEL ≠ GET := by decide
  have h4 : DEL ≠ SET := by decide
  have hsg : SET ≠ GET := by decide
  refine ⟨fun r d typ => ⟨?_, ?_, ?_⟩, fun r d => ⟨?_, ?_⟩, ?_⟩
  · unfold result.addDuration
    by_cases hg : typ = GET
    · simp [hg, result.addStatistic]
    · by_cases hs : typ = SET
      · simp [hs, hsg, result.addStatistic]
      · simp [hg, hs, result.addStatistic]
  · unfold result.addDuration
    by_cases hg : typ = GET
    · simp [hg, result.addStatistic]
    · by_cases hs : typ = SET
      · simp [hs, hsg, result.addStatistic]
      · simp [hg, hs, result.addStatistic]
  · unfold result.addDuration
    by_cases hg : typ = GET
    · simp [hg, result.addStatistic]
    · by_cases hs : typ = SET
      · simp [hs, hsg, result.addStatistic]
      · simp [hg, hs, result.addStatistic]
  · simp [result.addDuration, result.addStatistic, h3, h4]
  · simp [result.addDuration, result.addStatistic, h1, h2]
  · intro σ cli st st1 c c1 r d hrun hname
    simp [run, hrun, hname, h3]

/-- Instance of C19: a DEL of key "7" answered with the empty value is counted
in `missCount` by `run`. -/
theorem addDuration_counter_accounting_witness :
    run tcpClient ⟨[], [48, 32]⟩ ⟨DEL, [55], [], none⟩ result.empty 5
      = .returned (⟨[68, 49, 32, 55], []⟩, ⟨DEL, [55], [], none⟩,
          result.empty.addDuration 5 DEL) ∧
    (result.empty.addDuration 5 DEL).missCount = result.empty.missCount + 1 :=
  ⟨addDuration_counter_accounting.2.2 tcpClient ⟨[], [48, 32]⟩ ⟨[68, 49, 32, 55], []⟩
      ⟨DEL, [55], [], none⟩ ⟨DEL, [55], [], none⟩ result.empty 5 (by decide) (by decide),
   ((addDuration_counter_accounting.2.1 result.empty 5).1).1⟩

/-! ## Writes of the client -/

theorem send_eq (c : TcpClient) (cmd : Cmd) :
    c.send cmd
      = if cmd.Name = GET ∨ cmd.Name = SET ∨ cmd.Name = DEL then
          some ⟨c.out ++ encode cmd, c.r⟩
        else none := by
  have hsg : SET ≠ GET := by decide
  have hdg : DEL ≠ GET := by decide
  have hds : DEL ≠ SET := by decide
  unfold TcpClient.send encode
  by_cases hg : cmd.Name = GET
  · simp [hg, TcpClient.SendGet, TcpClient.Write, fmtInt_natCast]
  · by_cases hs : cmd.Name = SET
    · simp [hs, hsg, TcpClient.SendSet, TcpClient.Write, fmtInt_natCast]
    · by_cases hd : cmd.Name = DEL
      · simp [hd, hdg, hds, TcpClient.SendDel, TcpClient.Write, fmtInt_natCast]
      · simp [hg, hs, hd]

theorem encode_unknown (cmd : Cmd) (hg : cmd.Name ≠ GET) (hs : cmd.Name ≠ SET)
    (hd : cmd.Name ≠ DEL) : encode cmd = [] := by
  simp [encode, hg, hs, hd]

theorem pipelineSend_eq (cmds : List Cmd) :
    ∀ c : TcpClient, c.pipelineSend cmds = ⟨c.out ++ (cmds.map encode).flatten, c.r⟩ := by
  induction cmds with
  | nil => intro c; simp [TcpClient.pipelineSend]
  | cons cmd rest ih =>
    intro c
    simp only [TcpClient.pipelineSend, send_eq]
    by_cases hk : cmd.Name = GET ∨ cmd.Name = SET ∨ cmd.Name = DEL
    · simp [hk, ih]
    · have hu : encode cmd = [] :=
        encode_unknown cmd (fun h => hk (Or.inl h)) (fun h => hk (Or.inr (Or.inl h)))
          (fun h => hk (Or.inr (Or.inr h)))
      simp [hk, ih, hu]

theorem recvResp_out (c : TcpClient) :
    (∀ c1, c.recvResp = .panicked c1 → c1.out = c.out) ∧
    (∀ c1 v err, c.recvResp = .returned (c1, v, err) → c1.out = c.out) := by
  unfold TcpClient.recvResp
  rcases hl : readLen c.r with ⟨rest, vlen, _ | err⟩
  · simp only
    by_cases hneg : makePanics vlen
    · simp only [hneg, if_true]
      refine ⟨fun c1 h => ?_, fun c1 v err h => ?_⟩
      · cases h; rfl
      · cases h
    · simp only [hneg, if_false]
      rcases hf : ReadFull vlen.toNat rest with ⟨value, rest2, _ | err2⟩
      · refine ⟨fun c1 h => ?_, fun c1 v err h => ?_⟩
        · cases h
        · cases h; rfl
      · refine ⟨fun c1 h => ?_, fun c1 v err h => ?_⟩
        · cases h
        · cases h; rfl
  · simp only
    by_cases ht : err = .tcpErr
    · simp only [ht, if_true]
      obtain ⟨rest2, err2, ha⟩ := readABNFBytesArray_fails rest
      simp only [ha]
      refine ⟨fun c1 h => ?_, fun c1 v err h => ?_⟩
      · cases h
      · cases h; rfl
    · simp only [ht, if_false]
      refine ⟨fun c1 h => ?_, fun c1 v err h => ?_⟩
      · cases h
      · cases h; rfl

theorem pipelineRecv_out (cmds : List Cmd) :
    ∀ c : TcpClient,
      (∀ c1 cmds1, c.pipelineRecv cmds = .panicked (c1, cmds1) → c1.out = c.out) ∧
      (∀ c1 cmds1, c.pipelineRecv cmds = .returned (c1, cmds1) → c1.out = c.out) := by
  induction cmds with
  | nil =>
    intro c
    refine ⟨fun c1 cmds1 h => ?_, fun c1 cmds1 h => ?_⟩
    · simp [TcpClient.pipelineRecv] at h
    · simp only [TcpClient.pipelineRecv, Outcome.returned.injEq, Prod.mk.injEq] at h
      rw [← h.1]
  | cons cmd rest ih =>
    intro c
    have hrecv := recvResp_out c
    simp only [TcpClient.pipelineRecv]
    cases hr : c.recvResp with
    | panicked c1 =>
      have ho := hrecv.1 c1 hr
      refine ⟨fun c2 cmds2 h => ?_, fun c2 cmds2 h => ?_⟩
      · simp only [Outcome.panicked.injEq, Prod.mk.injEq] at h
        rw [← h.1]; exact ho
      · cases h
    | returned val =>
      obtain ⟨c1, value, err⟩ := val
      have ho := hrecv.2 c1 value err hr
      cases err with
      | none =>
        refine ⟨fun c2 cmds2 h => ?_, fun c2 cmds2 h => ?_⟩
        · simp only [Outcome.panicked.injEq, Prod.mk.injEq] at h
          rw [← h.1]; exact ho
        · cases h
      | some e =>
        simp only
        have hi := ih c1
        cases hrest : c1.pipelineRecv rest with
        | panicked st =>
          obtain ⟨c3, rest3⟩ := st
          refine ⟨fun c2 cmds2 h => ?_, fun c2 cmds2 h => ?_⟩
          · simp only [Outcome.panicked.injEq, Prod.mk.injEq] at h
            rw [← h.1, hi.1 c3 rest3 hrest]; exact ho
          · cases h
        | returned st =>
          obtain ⟨c3, rest3⟩ := st
          refine ⟨fun c2 cmds2 h => ?_, fun c2 cmds2 h => ?_⟩
          · cases h
          · simp only [Outcome.returned.injEq, Prod.mk.injEq] at h
            rw [← h.1, hi.2 c3 rest3 hrest]; exact ho

/-- C15. Two-phase pipeline: `PipelineRun` on a non-empty batch is the read
loop started in the state that the write loop leaves, in which the bytes
written are the encodings of the commands in batch order and no byte of the
reader has been consumed; the read loop writes nothing, so these are all the
bytes written, however `PipelineRun` ends.  For the empty batch the client is
returned as it was.  (A command with a name other than get/set/del has the
empty encoding here.) -/
theorem PipelineRun_two_phase (c : TcpClient) (cmds : List Cmd) :
    c.pipelineSend cmds = ⟨c.out ++ (cmds.map encode).flatten, c.r⟩ ∧
    (cmds ≠ [] → c.PipelineRun cmds = (c.pipelineSend cmds).pipelineRecv cmds) ∧
    (∀ c1 cmds1, c.PipelineRun cmds = .returned (c1, cmds1) →
      c1.out = c.out ++ (cmds.map encode).flatten) ∧
    (∀ c1 cmds1, c.PipelineRun cmds = .panicked (c1, cmds1) →
      c1.out = c.out ++ (cmds.map encode).flatten) ∧
    c.PipelineRun [] = .returned (c, []) := by
  have hsend := pipelineSend_eq cmds c
  have hout : (c.pipelineSend cmds).out = c.out ++ (cmds.map encode).flatten := by rw [hsend]
  have hrecv := pipelineRecv_out cmds (c.pipelineSend cmds)
  refine ⟨hsend, ?_, ?_, ?_, rfl⟩
  · intro hne
    have hl : cmds.length ≠ 0 := fun h => hne (List.length_eq_zero.mp h)
    simp only [TcpClient.PipelineRun, hl, if_false]
  · intro c1 cmds1 h
    by_cases hl : cmds.length = 0
    · have hnil : cmds = [] := List.length_eq_zero.mp hl
      subst hnil
      simp only [TcpClient.PipelineRun, List.length_nil, if_true, Outcome.returned.injEq,
        Prod.mk.injEq] at h
      rw [← h.1]; simp
    · simp only [TcpClient.PipelineRun, hl, if_false] at h
      rw [hrecv.2 c1 cmds1 h, hout]
  · intro c1 cmds1 h
    by_cases hl : cmds.length = 0
    · simp [TcpClient.PipelineRun, hl] at h
    · simp only [TcpClient.PipelineRun, hl, if_false] at h
      rw [hrecv.1 c1 cmds1 h, hout]

/-- Instance of C15: a batch of a SET of key "k" to "vv" and a GET of key "k",
answered by two responses that do not decode. -/
theorem PipelineRun_two_phase_witness :
    TcpClient.PipelineRun ⟨[], [120, 32, 121, 32]⟩
        [⟨SET, [107], [118, 118], none⟩, ⟨GET, [107], [], none⟩]
      = TcpClient.pipelineRecv
          (TcpClient.pipelineSend ⟨[], [120, 32, 121, 32]⟩
            [⟨SET, [107], [118, 118], none⟩, ⟨GET, [107], [], none⟩])
          [⟨SET, [107], [118, 118], none⟩, ⟨GET, [107], [], none⟩] :=
  (PipelineRun_two_phase ⟨[], [120, 32, 121, 32]⟩
    [⟨SET, [107], [118, 118], none⟩, ⟨GET, [107], [], none⟩]).2.1 (by decide)

/-- C18. Unknown operation: for a command whose name is not get, set or del,
`Run` panics with the client as it was (nothing written, nothing read), while
the write loop of `PipelineRun` on a batch that contains the command writes
the encodings of the commands before and after it, nothing for the command
itself, and `PipelineRun` goes on with the read loop. -/
theorem unknown_operation_asymmetry (c : TcpClient) (cmd : Cmd) (pre post : List Cmd)
    (hg : cmd.Name ≠ GET) (hs : cmd.Name ≠ SET) (hd : cmd.Name ≠ DEL) :
    c.Run cmd = .panicked (c, cmd) ∧
    c.pipelineSend (pre ++ cmd :: post)
      = ⟨c.out ++ ((pre.map encode).flatten ++ (post.map encode).flatten), c.r⟩ ∧
    c.PipelineRun (pre ++ cmd :: post)
      = (c.pipelineSend (pre ++ cmd :: post)).pipelineRecv (pre ++ cmd :: post) := by
  have hk : ¬ (cmd.Name = GET ∨ cmd.Name = SET ∨ cmd.Name = DEL) := by
    rintro (h | h | h)
    · exact hg h
    · exact hs h
    · exact hd h
  refine ⟨?_, ?_, ?_⟩
  · simp [TcpClient.Run, send_eq, hk]
  · rw [pipelineSend_eq]
    simp [encode_unknown cmd hg hs hd]
  · have hl : (pre ++ cmd :: post).length ≠ 0 := by simp
    simp only [TcpClient.PipelineRun, hl, if_false]

/-- Instance of C18: the command named "put" between a GET and a DEL. -/
theorem unknown_operation_asymmetry_witness :
    TcpClient.Run ⟨[], [49, 32, 97]⟩ ⟨[112, 117, 116], [107], [118], none⟩
      = .panicked (⟨[], [49, 32, 97]⟩, ⟨[112, 117, 116], [107], [118], none⟩) ∧
    TcpClient.pipelineSend ⟨[], [49, 32, 97]⟩
        ([⟨GET, [97], [], none⟩] ++ ⟨[112, 117, 116], [107], [118], none⟩
          :: [⟨DEL, [98], [], none⟩])
      = ⟨[] ++ (([⟨GET, [97], [], none⟩].map encode).flatten
          ++ ([⟨DEL, [98], [], none⟩].map encode).flatten), [49, 32, 97]⟩ ∧
    TcpClient.PipelineRun ⟨[], [49, 32, 97]⟩
        ([⟨GET, [97], [], none⟩] ++ ⟨[112, 117, 116], [107], [118], none⟩
          :: [⟨DEL, [98], [], none⟩])
      = TcpClient.pipelineRecv
          (TcpClient.pipelineSend ⟨[], [49, 32, 97]⟩
            ([⟨GET, [97], [], none⟩] ++ ⟨[112, 117, 116], [107], [118], none⟩
              :: [⟨DEL, [98], [], none⟩]))
          ([⟨GET, [97], [], none⟩] ++ ⟨[112, 117, 116], [107], [118], none⟩
            :: [⟨DEL, [98], [], none⟩]) :=
  unknown_operation_asymmetry ⟨[], [49, 32, 97]⟩ ⟨[112, 117, 116], [107], [118], none⟩
    [⟨GET, [97], [], none⟩] [⟨DEL, [98], [], none⟩] (by decide) (by decide) (by decide)

/-! ## Framing -/

theorem decValue_append (xs ys : Bytes) :
    decValue (xs ++ ys) = ys.foldl (fun acc ch => acc * 10 + (ch - 48)) (decValue xs) := by
  simp [decValue, List.foldl_append]

theorem decValue_fmtDigits (fuel : Nat) :
    ∀ u : Nat, u ≤ fuel → decValue (fmtDigits fuel u []) = u := by
  induction fuel with
  | zero =>
    intro u hu
    have h0 : u = 0 := by omega
    subst h0
    rfl
  | succ k ih =>
    intro u hu
    simp only [fmtDigits]
    split
    · rw [fmtDigits_acc, decValue_append, ih (u / 10) (by omega)]
      simp only [List.foldl_cons, List.foldl_nil]
      omega
    · simp only [decValue, List.foldl_cons, List.foldl_nil]
      omega

theorem decValue_decimal (n : Nat) : decValue (decimal n) = n := by
  rw [decimal_eq]; exact decValue_fmtDigits n n (Nat.le_refl n)

theorem decimal_injective (a b : Nat) (h : decimal a = decimal b) : a = b := by
  have := congrArg decValue h
  rwa [decValue_decimal, decValue_decimal] at this

theorem token_split (a b x y : Bytes) (ha : ∀ c ∈ a, c ≠ 32) (hb : ∀ c ∈ b, c ≠ 32)
    (h : a ++ 32 :: x = b ++ 32 :: y) : a = b ∧ x = y := by
  have h1 := ReadString_token a x ha
  have h2 := ReadString_token b y hb
  rw [h, h2] at h1
  simp only [Prod.mk.injEq, and_true] at h1
  exact ⟨(List.append_cancel_right h1.1).symm, h1.2.symm⟩

theorem decimal_no_space (n : Nat) : ∀ c ∈ decimal n, c ≠ 32 := fun c hc => by
  have := decimal_digits n c hc
  unfold isDigit at this
  omega

/-- C12. SET framing is unambiguous: if `SendSet(k1, v1)` and `SendSet(k2, v2)`
write the same bytes `w`, then `k1 = k2` and `v1 = v2`. -/
theorem SendSet_injective (c1 c2 : TcpClient) (k1 v1 k2 v2 w : Bytes)
    (h1 : (c1.SendSet k1 v1).out = c1.out ++ w) (h2 : (c2.SendSet k2 v2).out = c2.out ++ w) :
    k1 = k2 ∧ v1 = v2 := by
  simp only [TcpClient.SendSet, TcpClient.Write, fmtInt_natCast, List.append_cancel_left_eq] at h1 h2
  have h := h1.trans h2.symm
  simp only [List.cons_append, List.append_assoc, List.cons.injEq, true_and] at h
  obtain ⟨hk, h⟩ := token_split _ _ _ _ (decimal_no_space _) (decimal_no_space _) h
  obtain ⟨hv, h⟩ := token_split _ _ _ _ (decimal_no_space _) (decimal_no_space _) h
  exact List.append_inj h (decimal_injective _ _ hk)

/-- Instance of C12: two clients write "S1 2 kvv" for the key "k" and the value
"vv". -/
theorem SendSet_injective_witness :
    (TcpClient.SendSet ⟨[], []⟩ [107] [118, 118]).out
      = [] ++ [83, 49, 32, 50, 32, 107, 118, 118] ∧
    (TcpClient.SendSet ⟨[9], [1]⟩ [107] [118, 118]).out
      = [9] ++ [83, 49, 32, 50, 32, 107, 118, 118] ∧
    (([107] : Bytes) = [107] ∧ ([118, 118] : Bytes) = [118, 118]) :=
  ⟨by decide, by decide,
   SendSet_injective ⟨[], []⟩ ⟨[9], [1]⟩ [107] [118, 118] [107] [118, 118]
    [83, 49, 32, 50, 32, 107, 118, 118] (by decide) (by decide)⟩

/-! ## Short reads -/

theorem parseDigits_ok_value (s : Bytes) :
    ∀ (acc v : Nat), parseDigits acc s = .ok v →
      v = s.foldl (fun a ch => a * 10 + (ch - 48)) acc := by
  induction s with
  | nil =>
    intro acc v h
    simp only [parseDigits, Except.ok.injEq] at h
    simp [h]
  | cons c t ih =>
    intro acc v h
    simp only [parseDigits] at h
    split at h
    · split at h
      · cases h
      · simpa using ih _ _ h
    · cases h

theorem Atoi_decimal_cases (n : Nat) :
    (n ≤ maxInt ∧ Atoi (decimal n) = .ok (n : Int)) ∨ ∃ err, Atoi (decimal n) = .error err := by
  by_cases hn : n ≤ maxInt
  · exact Or.inl ⟨hn, Atoi_decimal n hn⟩
  · right
    obtain ⟨c, t, hct⟩ := List.exists_cons_of_ne_nil (decimal_ne_nil n)
    have hc : isDigit c := decimal_digits n c (by rw [hct]; simp)
    unfold isDigit at hc
    have h45 : c ≠ 45 := by omega
    have h43 : c ≠ 43 := by omega
    rw [hct]
    cases hp : parseDigits 0 (c :: t) with
    | error err => exact ⟨err, by simp only [Atoi, h45, h43, or_self, if_false, hp]⟩
    | ok un =>
      have hv := parseDigits_ok_value (c :: t) 0 un hp
      have hd := decValue_decimal n
      rw [hct] at hd
      unfold decValue at hd
      rw [hd] at hv
      subst hv
      refine ⟨.outOfRange, ?_⟩
      simp only [Atoi, h45, h43, or_self, if_false, hp]
      simp [Nat.lt_of_not_le hn]

theorem ReadString_no_delim (s : Bytes) (h : ∀ c ∈ s, c ≠ 32) :
    ReadString 32 s = (s, [], some .eof) := by
  induction s with
  | nil => rfl
  | cons b t ih =>
    have hb : b ≠ 32 := h b (by simp)
    have ht : ∀ x ∈ t, x ≠ 32 := fun x hx => h x (by simp [hx])
    simp [ReadString, hb, ih ht]

/-- Short read with a length that `make` accepts: when fewer than `n` bytes
follow the length token `decimal(n) ++ " "` and `n` is at most `maxAlloc`,
`recvResp` returns the empty string with a non-nil error and has consumed the
stream; and when the stream holds no space at all, `recvResp` returns the
empty string with a non-nil error. -/
theorem recvResp_short_read_within_limit :
    (∀ (out rest : Bytes) (n : Nat), rest.length < n → n ≤ maxAlloc →
      ∃ err, TcpClient.recvResp ⟨out, decimal n ++ 32 :: rest⟩
        = .returned (⟨out, []⟩, [], some err)) ∧
    (∀ (out s : Bytes), (∀ c ∈ s, c ≠ 32) →
      TcpClient.recvResp ⟨out, s⟩ = .returned (⟨out, []⟩, [], some (.wrapped .eof))) := by
  refine ⟨?_, ?_⟩
  · intro out rest n hlt hn
    have hi : n ≤ maxInt := Nat.le_trans hn maxAlloc_le_maxInt
    have hm := not_makePanics n hn
    have hne : ¬ (n ≤ rest.length) := by omega
    refine ⟨.wrapped (if rest = [] then .eof else .unexpectedEOF), ?_⟩
    simp only [TcpClient.recvResp, readLen_decimal n hi, hm, if_false, Int.toNat_ofNat,
      ReadFull, hne]
  · intro out s hs
    simp [TcpClient.recvResp, readLen, ReadString_no_delim s hs]

/-- A declared length above `maxAlloc` that is a Go `int` makes `recvResp`
panic in `make`, whatever follows the length token. -/
theorem recvResp_length_above_limit_panics (out rest : Bytes) (n : Nat)
    (hlo : maxAlloc < n) (hhi : n ≤ maxInt) :
    TcpClient.recvResp ⟨out, decimal n ++ 32 :: rest⟩ = .panicked ⟨out, rest⟩ := by
  have hm : makePanics (n : Int) := by
    unfold makePanics
    omega
  simp only [TcpClient.recvResp, readLen_decimal n hhi, hm, if_true]

/-- C14. A declared length that `make` refuses: on the response
"9223372036854775807 abc", whose length token is well formed and which holds
3 bytes, fewer than declared, `recvResp` panics in
`make([]byte, 9223372036854775807)` instead of returning an error. -/
theorem recvResp_short_read_huge_length_panics :
    TcpClient.recvResp
        ⟨[], [57, 50, 50, 51, 51, 55, 50, 48, 51, 54, 56, 53, 52, 55, 55, 53, 56, 48, 55, 32,
          97, 98, 99]⟩
      = .panicked ⟨[], [97, 98, 99]⟩ := by
  decide

/-! ## Batches of a worker -/

theorem chunksAux_fuel {α : Type} (L : Nat) (hL : 1 ≤ L) (f1 : Nat) :
    ∀ (f2 : Nat) (xs : List α), xs.length ≤ f1 → xs.length ≤ f2 →
      chunksAux L f1 xs = chunksAux L f2 xs := by
  induction f1 with
  | zero =>
    intro f2 xs h1 _
    have hnil : xs = [] := List.length_eq_zero.mp (by omega)
    subst hnil
    cases f2 <;> rfl
  | succ k ih =>
    intro f2 xs h1 h2
    cases xs with
    | nil => cases f2 <;> rfl
    | cons x t =>
      cases f2 with
      | zero => simp at h2
      | succ m =>
        simp only [chunksAux]
        have hd : ((x :: t).drop L).length ≤ t.length := by
          simp only [List.length_drop, List.length_cons]; omega
        simp only [List.length_cons] at h1 h2
        rw [ih m _ (by omega) (by omega)]

theorem chunks_nil {α : Type} (L : Nat) : chunks L ([] : List α) = [] := rfl

theorem chunks_step {α : Type} (L : Nat) (hL : 1 ≤ L) (xs : List α) (hne : xs ≠ []) :
    chunks L xs = xs.take L :: chunks L (xs.drop L) := by
  obtain ⟨x, t, rfl⟩ := List.exists_cons_of_ne_nil hne
  unfold chunks
  simp only [List.length_cons, chunksAux]
  rw [chunksAux_fuel L hL t.length ((x :: t).drop L).length _
    (by simp only [List.length_drop, List.length_cons]; omega) (Nat.le_refl _)]

theorem chunks_append_full {α : Type} (L : Nat) (hL : 1 ≤ L) (xs ys : List α)
    (hx : xs.length = L) : chunks L (xs ++ ys) = xs :: chunks L ys := by
  have hne : xs ++ ys ≠ [] := by
    intro h
    have := congrArg List.length h
    simp only [List.length_append, List.length_nil] at this
    omega
  rw [chunks_step L hL _ hne, List.take_left' hx, List.drop_left' hx]

theorem chunks_short {α : Type} (L : Nat) (hL : 1 ≤ L) (xs : List α) (hne : xs ≠ [])
    (hx : xs.length < L) : chunks L xs = [xs] := by
  rw [chunks_step L hL _ hne, List.take_of_length_le (by omega),
    List.drop_of_length_le (by omega), chunks_nil]

theorem chunks_props {α : Type} (L : Nat) (hL : 1 ≤ L) (n : Nat) :
    ∀ xs : List α, xs.length = n →
      (chunks L xs).flatten = xs ∧
      (chunks L xs).map List.length
        = List.replicate (n / L) L ++ (if n % L = 0 then [] else [n % L]) ∧
      ∀ b ∈ chunks L xs, b ≠ [] := by
  induction n using Nat.strong_induction_on with
  | _ n ih =>
    intro xs hn
    by_cases hnil : xs = []
    · subst hnil
      simp only [List.length_nil] at hn
      subst hn
      simp [chunks_nil]
    · have hpos : 0 < n := by
        rw [← hn]; exact List.length_pos.mpr hnil
      by_cases hlt : n < L
      · rw [chunks_short L hL xs hnil (by omega)]
        have h0 : n / L = 0 := Nat.div_eq_of_lt hlt
        have h1 : n % L = n := Nat.mod_eq_of_lt hlt
        have h2 : n ≠ 0 := by omega
        simp [h0, h1, h2, hn, hnil]
      · have hge : L ≤ n := Nat.le_of_not_lt hlt
        rw [chunks_step L hL xs hnil]
        have hdl : (xs.drop L).length = n - L := by simp [hn]
        obtain ⟨i1, i2, i3⟩ := ih (n - L) (by omega) (xs.drop L) hdl
        have htl : (xs.take L).length = L := by simp [hn, hge]
        refine ⟨?_, ?_, ?_⟩
        · simp only [List.flatten_cons, i1, List.take_append_drop]
        · have hq : n / L = (n - L) / L + 1 := by
            have := Nat.sub_add_cancel hge
            conv_lhs => rw [← this]
            rw [Nat.add_div_right _ (by omega)]
          have hm : n % L = (n - L) % L := by
            have := Nat.sub_add_cancel hge
            conv_lhs => rw [← this]
            rw [Nat.add_mod_right]
          simp only [List.map_cons, htl, i2, hq, hm, List.replicate_succ, List.cons_append]
        · intro b hb
          simp only [List.mem_cons] at hb
          rcases hb with hb | hb
          · intro hbn
            rw [hb] at hbn
            have := congrArg List.length hbn
            simp only [htl, List.length_nil] at this
            omega
          · exact i3 b hb

theorem genFrom_length (f : Flags) (w : World) (id count : Int) (rem : Nat) :
    ∀ i : Nat, (genFrom f w id count i rem).length = rem := by
  induction rem with
  | zero => intro i; rfl
  | succ k ih => intro i; simp [genFrom, ih]

theorem operateLoop_batches {σ : Type} (cli : Client σ) (f : Flags) (w : World) (id count : Int)
    (hL : f.pipeLen > 1) (rem : Nat) :
    ∀ (i : Nat) (st : σ) (acc : List Cmd) (res : result),
      acc.length < f.pipeLen.toNat → acc.length ≤ i →
      flushRest cli w (i + rem) (operateLoop cli f w id count rem i st acc res)
        = runBatches cli w (chunks f.pipeLen.toNat (acc ++ genFrom f w id count i rem))
            (i - acc.length) st res := by
  have hL1 : 1 ≤ f.pipeLen.toNat := by omega
  induction rem with
  | zero =>
    intro i st acc res hacc hi
    simp only [operateLoop, flushRest, genFrom, List.append_nil, Nat.add_zero]
    by_cases hnil : acc = []
    · subst hnil
      simp [chunks_nil, runBatches]
    · have hlen : acc.length ≠ 0 := fun h => hnil (List.length_eq_zero.mp h)
      rw [chunks_short _ hL1 acc hnil hacc]
      simp only [hlen, ne_eq, not_false_eq_true, if_true, runBatches, Nat.sub_add_cancel hi]
  | succ k ih =>
    intro i st acc res hacc hi
    have hidx : i + (k + 1) = i + 1 + k := by omega
    rw [hidx]
    simp only [operateLoop, hL, if_true, genFrom]
    have happ : acc ++ genCmd f w id count i :: genFrom f w id count (i + 1) k
        = (acc ++ [genCmd f w id count i]) ++ genFrom f w id count (i + 1) k := by simp
    rw [happ]
    by_cases hfull : ((acc ++ [genCmd f w id count i]).length : Int) = f.pipeLen
    · have hlenL : (acc ++ [genCmd f w id count i]).length = f.pipeLen.toNat := by omega
      simp only [hfull, if_true]
      rw [chunks_append_full _ hL1 _ _ hlenL]
      simp only [runBatches]
      have hd : i - acc.length + (acc ++ [genCmd f w id count i]).length = i + 1 := by
        simp only [List.length_append, List.length_singleton]; omega
      rw [hd]
      cases hp : pipeline cli st (acc ++ [genCmd f w id count i]) res (w.dur (i + 1)) with
      | panicked x => rfl
      | returned x =>
        obtain ⟨st1, cmds1, res1⟩ := x
        have := ih (i + 1) st1 [] res1 (by simp; omega) (by simp)
        simpa using this
    · simp only [hfull, if_false]
      have hlt : (acc ++ [genCmd f w id count i]).length < f.pipeLen.toNat := by
        simp only [List.length_append, List.length_singleton] at hfull ⊢
        omega
      have := ih (i + 1) st (acc ++ [genCmd f w id count i]) res hlt
        (by simp only [List.length_append, List.length_singleton]; omega)
      rw [this]
      congr 1
      simp only [List.length_append, List.length_singleton]
      omega

/-- C17. Pipeline batching: with a pipeline length `L > 1` (and a data size
that is not negative), `operate` hands to `pipeline`, one after the other, the
generated commands cut into consecutive batches: put together the batches are
the `C` generated commands in iteration order, there are `C / L` batches of
`L` commands followed by one batch of `C mod L` commands when `C mod L` is
not 0, and no batch is empty. -/
theorem operate_batches {σ : Type} (cli : Client σ) (f : Flags) (w : World) (st : σ)
    (id count : Int) (hL : f.pipeLen > 1) (hv : 0 ≤ f.valueSize) :
    operate cli f w st id count
      = runBatches cli w (chunks f.pipeLen.toNat (genCmds f w id count)) 0 st result.empty ∧
    (chunks f.pipeLen.toNat (genCmds f w id count)).flatten = genCmds f w id count ∧
    (genCmds f w id count).length = count.toNat ∧
    (chunks f.pipeLen.toNat (genCmds f w id count)).map List.length
      = List.replicate (count.toNat / f.pipeLen.toNat) f.pipeLen.toNat
        ++ (if count.toNat % f.pipeLen.toNat = 0 then []
            else [count.toNat % f.pipeLen.toNat]) ∧
    ∀ b ∈ chunks f.pipeLen.toNat (genCmds f w id count), b ≠ [] := by
  have hL1 : 1 ≤ f.pipeLen.toNat := by omega
  have hlen : (genCmds f w id count).length = count.toNat := genFrom_length f w id count _ 0
  obtain ⟨p1, p2, p3⟩ := chunks_props f.pipeLen.toNat hL1 count.toNat (genCmds f w id count) hlen
  refine ⟨?_, p1, hlen, p2, p3⟩
  have hnv : ¬ (f.valueSize < 0) := by omega
  have h := operateLoop_batches cli f w id count hL count.toNat 0 st [] result.empty
    (by simp; omega) (by simp)
  simp only [Nat.zero_add, List.nil_append, List.length_nil, Nat.sub_zero] at h
  simp only [operate, hnv, if_false, h, genCmds]

/-- Instance of C17: 5 SET commands with a pipeline length of 3 on the TCP
client. -/
theorem operate_batches_witness :
    operate tcpClient ⟨SET, 2, 0, 3⟩ ⟨fun _ => 0, fun _ => 0, fun n => 1000 * n⟩
        ⟨[], [120, 32, 120, 32, 120, 32, 120, 32, 120, 32]⟩ 0 5
      = runBatches tcpClient ⟨fun _ => 0, fun _ => 0, fun n => 1000 * n⟩
          (chunks (3 : Int).toNat
            (genCmds ⟨SET, 2, 0, 3⟩ ⟨fun _ => 0, fun _ => 0, fun n => 1000 * n⟩ 0 5))
          0 ⟨[], [120, 32, 120, 32, 120, 32, 120, 32, 120, 32]⟩ result.empty :=
  (operate_batches tcpClient ⟨SET, 2, 0, 3⟩ ⟨fun _ => 0, fun _ => 0, fun n => 1000 * n⟩
    ⟨[], [120, 32, 120, 32, 120, 32, 120, 32, 120, 32]⟩ 0 5 (by decide) (by decide)).1

/-! ## Keys and shares of the workers -/

theorem wrapInt_id (x : Int) (h0 : -(2 ^ 63) ≤ x) (h1 : x < 2 ^ 63) : wrapInt x = x := by
  unfold wrapInt
  omega

theorem fmtInt_nonneg (x : Int) (h : 0 ≤ x) : fmtInt x = decimal x.toNat := by
  have hx : x = ((x.toNat : Nat) : Int) := (Int.toNat_of_nonneg h).symm
  conv_lhs => rw [hx]
  exact fmtInt_natCast _

theorem seq_index_injective (C id1 id2 : Int) (i1 i2 : Nat)
    (hi1 : (i1 : Int) < C) (hi2 : (i2 : Int) < C)
    (h : id1 * C + i1 = id2 * C + i2) : id1 = id2 ∧ i1 = i2 := by
  have hi1' : (0 : Int) ≤ i1 := Int.ofNat_nonneg _
  have hi2' : (0 : Int) ≤ i2 := Int.ofNat_nonneg _
  have hid : id1 = id2 := by
    by_contra hne
    rcases lt_or_gt_of_ne hne with hlt | hgt
    · have : (id2 - id1) * C ≥ 1 * C :=
        Int.mul_le_mul_of_nonneg_right (by omega) (by omega)
      nlinarith
    · have : (id1 - id2) * C ≥ 1 * C :=
        Int.mul_le_mul_of_nonneg_right (by omega) (by omega)
      nlinarith
  subst hid
  exact ⟨rfl, by omega⟩

theorem seqKey_exact (W C id : Int) (i : Nat) (h : 0 ≤ id ∧ id < W) (hi : (i : Int) < C)
    (hWC : W * C ≤ (maxInt : Int)) :
    seqKey id C i = id * C + i ∧ 0 ≤ id * C + (i : Int) := by
  have hi' : (0 : Int) ≤ i := Int.ofNat_nonneg _
  have hC : 0 ≤ C := by omega
  have h0 : 0 ≤ id * C := Int.mul_nonneg h.1 hC
  have h1 : id * C ≤ (W - 1) * C := Int.mul_le_mul_of_nonneg_right (by omega) hC
  have h2 : (W - 1) * C = W * C - C := by ring
  have hm : (maxInt : Int) = 2 ^ 63 - 1 := by decide
  rw [hm] at hWC
  unfold seqKey
  rw [wrapInt_id (id * C) (by omega) (by omega), wrapInt_id _ (by omega) (by omega)]
  exact ⟨rfl, by omega⟩

/-- C16. Sequential key uniqueness: for workers `id1`, `id2` below `W` and
iterations `i1`, `i2` below the per-worker count `C`, with `W * C` a Go `int`
(as it is in `main`, where `C = total / W`), two different pairs `(id, i)`
give different numbers `id*C + i`, no wrap-around occurs in computing them,
and without a key-space bound the keys of the generated commands differ. -/
theorem sequential_keys_distinct (f : Flags) (w : World) (W C id1 id2 : Int) (i1 i2 : Nat)
    (h1 : 0 ≤ id1 ∧ id1 < W) (h2 : 0 ≤ id2 ∧ id2 < W)
    (hi1 : (i1 : Int) < C) (hi2 : (i2 : Int) < C) (hWC : W * C ≤ (maxInt : Int))
    (hks : f.keySpaceLen ≤ 0) (hne : (id1, i1) ≠ (id2, i2)) :
    id1 * C + i1 ≠ id2 * C + i2 ∧
    seqKey id1 C i1 = id1 * C + i1 ∧
    seqKey id2 C i2 = id2 * C + i2 ∧
    (genCmd f w id1 C i1).Key ≠ (genCmd f w id2 C i2).Key := by
  have hmath : id1 * C + i1 ≠ id2 * C + i2 := by
    intro h
    obtain ⟨e1, e2⟩ := seq_index_injective C id1 id2 i1 i2 hi1 hi2 h
    exact hne (by rw [e1, e2])
  obtain ⟨k1, p1⟩ := seqKey_exact W C id1 i1 h1 hi1 hWC
  obtain ⟨k2, p2⟩ := seqKey_exact W C id2 i2 h2 hi2 hWC
  refine ⟨hmath, k1, k2, ?_⟩
  have hk : ¬ (f.keySpaceLen > 0) := by omega
  simp only [genCmd, hk, if_false, k1, k2]
  rw [fmtInt_nonneg _ p1, fmtInt_nonneg _ p2]
  intro h
  have := decimal_injective _ _ h
  apply hmath
  omega

/-- Instance of C16: workers 0 and 1 of 2 with 3 requests each. -/
theorem sequential_keys_distinct_witness :
    (0 : Int) * 3 + (2 : Nat) ≠ 1 * 3 + (0 : Nat) ∧
    seqKey 0 3 2 = 0 * 3 + (2 : Nat) ∧
    seqKey 1 3 0 = 1 * 3 + (0 : Nat) ∧
    (genCmd ⟨SET, 2, 0, 1⟩ ⟨fun _ => 0, fun _ => 0, fun _ => 0⟩ 0 3 2).Key
      ≠ (genCmd ⟨SET, 2, 0, 1⟩ ⟨fun _ => 0, fun _ => 0, fun _ => 0⟩ 1 3 0).Key :=
  sequential_keys_distinct ⟨SET, 2, 0, 1⟩ ⟨fun _ => 0, fun _ => 0, fun _ => 0⟩ 2 3 0 1 2 0
    (by decide) (by decide) (by decide) (by decide) (by decide) (by decide) (by decide)

theorem sum_const_range (n : Nat) (c : Int) :
    ((List.range n).map (fun _ => c)).sum = (n : Int) * c := by
  induction n with
  | zero => simp
  | succ k ih =>
    rw [List.range_succ, List.map_append, List.sum_append, ih]
    simp only [List.map_cons, List.map_nil, List.sum_cons, List.sum_nil]
    push_cast
    ring

/-- C20. Workload partition: for `total ≥ 0` and `threads ≥ 1`, `main` starts
`threads` workers, each with the count `total / threads`; each worker
generates that many commands; the counts add up to `threads * (total /
threads)`, which is `total - total mod threads`, and equals `total` exactly
when `threads` divides `total`. -/
theorem workload_partition (total threads : Int) (ht : 0 ≤ total) (hn : 1 ≤ threads) :
    spawnArgs total threads
      = (List.range threads.toNat).map (fun (i : Nat) => ((i : Int), total / threads)) ∧
    ((spawnArgs total threads).length : Int) = threads ∧
    (∀ (f : Flags) (w : World), ∀ a ∈ spawnArgs total threads,
      ((genCmds f w a.1 a.2).length : Int) = total / threads) ∧
    ((spawnArgs total threads).map (fun a => a.2)).sum = threads * (total / threads) ∧
    threads * (total / threads) = total - total % threads ∧
    (threads * (total / threads) = total ↔ threads ∣ total) := by
  have hdiv : Int.tdiv total threads = total / threads :=
    Int.tdiv_eq_ediv ht (by omega)
  have hq : 0 ≤ total / threads := Int.ediv_nonneg ht (by omega)
  have hargs : spawnArgs total threads
      = (List.range threads.toNat).map (fun (i : Nat) => ((i : Int), total / threads)) := by
    unfold spawnArgs; rw [hdiv]
  have hcast : ((threads.toNat : Nat) : Int) = threads := Int.toNat_of_nonneg (by omega)
  have hdm := Int.ediv_add_emod total threads
  refine ⟨hargs, ?_, ?_, ?_, ?_, ?_⟩
  · rw [hargs]; simp only [List.length_map, List.length_range]; exact hcast
  · intro f w a ha
    rw [hargs] at ha
    simp only [List.mem_map, List.mem_range] at ha
    obtain ⟨i, _, rfl⟩ := ha
    simp only [genCmds, genFrom_length]
    exact Int.toNat_of_nonneg hq
  · rw [hargs, List.map_map]
    have hc : ((fun a : Int × Int => a.2) ∘ fun (i : Nat) => ((i : Int), total / threads))
        = fun _ => total / threads := rfl
    rw [hc, sum_const_range, hcast]
  · linarith
  · constructor
    · intro h
      exact Dvd.intro _ h
    · intro h
      exact Int.mul_ediv_cancel' h

/-- Instance of C20: 10 requests for 3 workers. -/
theorem workload_partition_witness :
    spawnArgs 10 3
      = (List.range (3 : Int).toNat).map (fun (i : Nat) => ((i : Int), (10 : Int) / 3)) ∧
    ((spawnArgs 10 3).map (fun a => a.2)).sum = 3 * ((10 : Int) / 3) ∧
    (3 : Int) * (10 / 3) = 10 - 10 % 3 :=
  ⟨(workload_partition 10 3 (by decide) (by decide)).1,
   (workload_partition 10 3 (by decide) (by decide)).2.2.2.1,
   (workload_partition 10 3 (by decide) (by decide)).2.2.2.2.1⟩

/-! ## Pipelined requests on the TCP client -/

theorem recvResp_error_value (c c1 : TcpClient) (v : Bytes) (e : GoError)
    (h : c.recvResp = .returned (c1, v, some e)) : v = [] := by
  unfold TcpClient.recvResp at h
  rcases hl : readLen c.r with ⟨rest, vlen, _ | err⟩
  · simp only [hl] at h
    by_cases hm : makePanics vlen
    · simp only [hm, if_true] at h
      cases h
    · simp only [hm, if_false] at h
      rcases hf : ReadFull vlen.toNat rest with ⟨value, rest2, _ | err2⟩
      · simp only [hf] at h
        cases h
      · simp only [hf] at h
        cases h
        rfl
  · simp only [hl] at h
    by_cases ht : err = .tcpErr
    · simp only [ht, if_true] at h
      obtain ⟨rest2, err2, ha⟩ := readABNFBytesArray_fails rest
      simp only [ha] at h
      cases h
      rfl
    · simp only [ht, if_false] at h
      cases h
      rfl

/-- When the read loop of `PipelineRun` returns, every response of the batch
failed to decode: every command holds the empty value and a non-nil error. -/
theorem pipelineRecv_returned_empty (cmds : List Cmd) :
    ∀ (c c1 : TcpClient) (cmds1 : List Cmd), c.pipelineRecv cmds = .returned (c1, cmds1) →
      ∀ x ∈ cmds1, x.Value = [] ∧ x.Error ≠ none := by
  induction cmds with
  | nil =>
    intro c c1 cmds1 h x hx
    simp only [TcpClient.pipelineRecv, Outcome.returned.injEq, Prod.mk.injEq] at h
    rw [← h.2] at hx
    cases hx
  | cons cmd rest ih =>
    intro c c1 cmds1 h x hx
    simp only [TcpClient.pipelineRecv] at h
    cases hr : c.recvResp with
    | panicked c2 =>
      simp only [hr] at h
      cases h
    | returned val =>
      obtain ⟨c2, value, err⟩ := val
      simp only [hr] at h
      cases err with
      | none => cases h
      | some e =>
        have hv := recvResp_error_value c c2 value e hr
        simp only at h
        cases hrest : c2.pipelineRecv rest with
        | panicked st =>
          simp only [hrest] at h
          cases h
        | returned st =>
          obtain ⟨c3, rest3⟩ := st
          simp only [hrest, Outcome.returned.injEq, Prod.mk.injEq] at h
          rw [← h.2] at hx
          simp only [List.mem_cons] at hx
          rcases hx with hx | hx
          · rw [hx]
            exact ⟨hv, by simp⟩
          · exact ih c2 c3 rest3 hrest x hx

/-- In pipeline mode on the TCP client, a batch whose first response is a
well-formed value makes `pipeline` panic inside `PipelineRun`, with nothing
recorded. -/
theorem pipeline_value_response_panics (c : TcpClient) (cmd : Cmd) (rest : List Cmd)
    (p more : Bytes) (r : result) (d : Nat) (hp : p.length ≤ maxAlloc)
    (hr : c.r = decimal p.length ++ 32 :: (p ++ more)) :
    pipeline tcpClient c (cmd :: rest) r d
      = .panicked (⟨(c.pipelineSend (cmd :: rest)).out, more⟩,
          { cmd with Value := p, Error := none } :: rest, r) := by
  have h := PipelineRun_value_response_panics c cmd rest p more hp hr
  simp only [pipeline, tcpClient, h]

/-- C9. A pipelined GET that is answered with its expected value: for the batch
of one GET of key "7" built with the value "abcd" and the response "4 abcd",
`pipeline` on the TCP client panics inside `PipelineRun` and records nothing
(`getCount` stays 0), while `run` on the same command and response returns
and records a get. -/
theorem pipelined_get_hit_panics :
    pipeline tcpClient ⟨[], [52, 32, 97, 98, 99, 100]⟩ [⟨GET, [55], [97, 98, 99, 100], none⟩]
        result.empty 5
      = .panicked (⟨[71, 49, 32, 55], []⟩, [⟨GET, [55], [97, 98, 99, 100], none⟩],
          result.empty) ∧
    result.empty.getCount = 0 ∧
    run tcpClient ⟨[], [52, 32, 97, 98, 99, 100]⟩ ⟨GET, [55], [97, 98, 99, 100], none⟩
        result.empty 5
      = .returned (⟨[71, 49, 32, 55], []⟩, ⟨GET, [55], [97, 98, 99, 100], none⟩,
          ⟨1, 0, 0, [⟨1, 5⟩]⟩) := by
  decide

end KVBench
